import Mathlib

attribute [local semireducible] Rat.mul Rat.add Rat.sub Rat.inv Rat.ofScientific

/-!
# Verification of the tiled Mandelbrot texture cache (`mandel_texture.rs`)

Shallow embedding of the tile scheduler, cancellation protocol and compute
kernel of `src/mandel_texture.rs`.  Machine floats (`f64`) are embedded as
exact rationals (`ℚ`); the float literal `0.74` is embedded as `37/50` and
`f64::EPSILON` as `1/2^52`; the comparison `z.norm() <= 8.0` is embedded as
`normSq z ≤ 64` (equivalent for nonnegative reals).  Machine integers (`u32`,
`u8`, `usize`) are embedded as `ℕ` with explicit `% 256` where the source
casts to `u8`; the u32 quantities involved (tile coordinates, sizes, token
counters) stay far below `2^32` in the source configuration, and no claim
probes u32 wraparound.

The repository's `math` module (`Vec2*`, `Rect*`) is not part of the given
sources, so the geometric primitives are modelled from the spec, as marked on
each such definition.  Everything else is translated directly from
`mandel_texture.rs`.
-/

namespace MandelTexture

/-- Modelled from the spec: 2-d vector of rationals, standing for `Vec2f64`
from the missing `math` module. -/
structure Vec2q where
  x : ℚ
  y : ℚ
deriving DecidableEq, Repr

/-- Modelled from the spec: rectangle (position + size) in fractal space,
standing for `RectF64` from the missing `math` module. -/
structure RectQ where
  pos : Vec2q
  size : Vec2q
deriving DecidableEq, Repr

/-- 2-d vector of naturals, standing for `Vec2u32`. -/
structure Vec2n where
  x : ℕ
  y : ℕ
deriving DecidableEq, Repr

/-- Rectangle in texture space, standing for `RectU32`. -/
structure RectN where
  pos : Vec2n
  size : Vec2n
deriving DecidableEq, Repr

/-- Modelled from the spec: `RectF64::center`, the midpoint of a rectangle
(`pos + size/2` componentwise). -/
def RectQ.center (r : RectQ) : Vec2q :=
  ⟨r.pos.x + r.size.x / 2, r.pos.y + r.size.y / 2⟩

/-- Modelled from the spec: `RectF64::center_size`, the rectangle with the
given center and size. -/
def RectQ.center_size (c s : Vec2q) : RectQ :=
  ⟨⟨c.x - s.x / 2, c.y - s.y / 2⟩, s⟩

/-- Modelled from the spec: axis-aligned rectangle overlap test
(`RectF64::intersects`), with the standard strict comparisons so that
rectangles merely touching along an edge do not intersect. -/
def RectQ.intersects (a b : RectQ) : Prop :=
  a.pos.x < b.pos.x + b.size.x ∧ b.pos.x < a.pos.x + a.size.x ∧
  a.pos.y < b.pos.y + b.size.y ∧ b.pos.y < a.pos.y + a.size.y

instance (a b : RectQ) : Decidable (a.intersects b) := by
  unfold RectQ.intersects; infer_instance

/-- `f64::EPSILON = 2⁻⁵²`, the tolerance of the scale-change comparison. -/
def EPS : ℚ := 1 / 2 ^ 52

/-- `TILE_SIZE` from `mandel_texture.rs`. -/
def TILE_SIZE : ℕ := 128

/-!
## The compute kernel `mandelbrot`

`async fn mandelbrot(img_size, tile_rect, fractal_offset, fractal_scale,
cancel_token)` from `mandel_texture.rs`.  The kernel's interaction with the
shared atomic token is made explicit: `gen` is the value of
`cancel_token.load(...)` taken at the start of the body, and `sched pos` is
the live value of the shared counter at the instant the pixel with scan index
`pos = y * w + x` is processed (the kernel reads it only when `x % 32 == 0`).
-/

/-- One step `z ← z² + c` of the divergence iteration (`num_complex`
multiplication written out). -/
def zStep (c z : Vec2q) : Vec2q :=
  ⟨z.x * z.x - z.y * z.y + c.x, 2 * z.x * z.y + c.y⟩

/-- `norm(z)² = x² + y²`; the source compares `z.norm() <= 8.0`, embedded as
`normSq z ≤ 64`. -/
def normSq (z : Vec2q) : ℚ := z.x * z.x + z.y * z.y

/-- `MAX_IT` from the kernel body. -/
def MAX_IT : ℕ := 256

/-- The escape loop `while z.norm() <= 8.0 && it <= MAX_IT { z = z*z + c;
it += 1 }`, run with enough fuel that the `it ≤ MAX_IT` bound, not the fuel,
terminates a non-escaping point. -/
def escapeGo (c : Vec2q) : Vec2q → ℕ → ℕ → ℕ
  | _, it, 0 => it
  | z, it, fuel + 1 =>
    if normSq z ≤ 64 ∧ it ≤ MAX_IT then escapeGo c (zStep c z) (it + 1) fuel else it

/-- The escape iteration count of the kernel's divergence test at point `c`:
the final value of `it`. -/
def escapeCount (c : Vec2q) : ℕ := escapeGo c ⟨0, 0⟩ 0 (MAX_IT + 2)

/-- The byte stored for a pixel: `it as u8`, i.e. the iteration count reduced
mod 256. -/
def escapeByte (c : Vec2q) : ℕ := escapeCount c % 256

/-- The point `c` the kernel evaluates for pixel `(x, y)` of a tile:
`offset = (fractal_offset.x + 0.74, fractal_offset.y)`, then
`cx = ((x + pos.x)/width − 0.5)/scale − offset.x` and similarly for `cy`. -/
def pixelC (img : Vec2n) (tileR : RectN) (fOff : Vec2q) (fScale : ℚ)
    (x y : ℕ) : Vec2q :=
  let off : Vec2q := ⟨fOff.x + 37 / 50, fOff.y⟩
  let cx : ℚ := ((x + tileR.pos.x : ℕ) : ℚ) / (img.x : ℚ)
  let cy : ℚ := ((y + tileR.pos.y : ℕ) : ℚ) / (img.y : ℚ)
  ⟨(cx - 1 / 2) / fScale - off.x, (cy - 1 / 2) / fScale - off.y⟩

/-- Scan positions at which the kernel polls the cancellation token:
`x % 32 == 0`, where `x = pos % w` is the column of scan index `pos`. -/
def pollPos (w pos : ℕ) : Prop := pos % w % 32 = 0

instance (w pos : ℕ) : Decidable (pollPos w pos) := by
  unfold pollPos; infer_instance

/-- The last scan position at which the kernel polls the token, for a tile
rectangle of size `w × h`: the pixel `(x, y) = (32·⌊(w−1)/32⌋, h−1)`. -/
def lastPoll (r : RectN) : ℕ :=
  (r.size.y - 1) * r.size.x + 32 * ((r.size.x - 1) / 32)

/-- The kernel's scan loop, flattened over scan indices `pos = y * w + x`
(exactly the buffer index `y * tile_rect.size.x + x` used by the source):
poll the token when `x % 32 == 0` and fail if it no longer matches `gen`,
otherwise store the pixel's escape byte and continue.  `fuel` is the number
of pixels left to scan. -/
def mandelGo (w gen : ℕ) (sched : ℕ → ℕ) (pix : ℕ → ℕ) :
    ℕ → ℕ → List ℕ → Except String (List ℕ)
  | 0, _, acc => .ok acc
  | fuel + 1, pos, acc =>
    if pollPos w pos ∧ sched pos ≠ gen then .error "Cancelled"
    else mandelGo w gen sched pix fuel (pos + 1) (acc ++ [pix pos])

/-- `mandelbrot` from `mandel_texture.rs`: scans the `tile_rect.size.x ×
tile_rect.size.y` pixels in row-major order, producing one escape byte per
pixel, aborting with a cancellation error as soon as a token poll mismatches
`gen`. -/
def mandelbrot (img : Vec2n) (tileR : RectN) (fOff : Vec2q) (fScale : ℚ)
    (gen : ℕ) (sched : ℕ → ℕ) : Except String (List ℕ) :=
  mandelGo tileR.size.x gen sched
    (fun pos => escapeByte (pixelC img tileR fOff fScale (pos % tileR.size.x) (pos / tileR.size.x)))
    (tileR.size.x * tileR.size.y) 0 []

/-!
## Tiles and construction (`MandelTexture::new`)
-/

/-- `TileState` from `mandel_texture.rs`.  The `Computing` task handle is
embedded as the task's index in the system's task list. -/
inductive TileState where
  | Idle : TileState
  | Computing : ℕ → TileState
  | WaitForUpload : List ℕ → TileState
  | Ready : TileState
deriving DecidableEq, Repr

/-- `Tile` from `mandel_texture.rs`: identity index, fixed texture-space
rectangle, state, cancellation token (`AtomicU32`, embedded as `ℕ`). -/
structure Tile where
  index : ℕ
  tex_rect : RectN
  state : TileState
  cancel_token : ℕ
deriving DecidableEq, Repr

/-- The minimum resolution asserted by the constructor
(`assert!(tex_size >= 1024)`). -/
def MIN_RES : ℕ := 1024

/-- The tile grid built by `MandelTexture::new`: for `i` and `j` below
`R / T`, a tile with rectangle `⟨(i·T, j·T), (T, T)⟩` and index equal to its
position in the list (`tiles.len()` at push time, i.e. `i·(R/T) + j`), all
`Idle` with token `0`. -/
def mkTiles (R T : ℕ) : List Tile :=
  (List.range (R / T)).bind fun i =>
    (List.range (R / T)).map fun j =>
      { index := i * (R / T) + j,
        tex_rect := ⟨⟨i * T, j * T⟩, ⟨T, T⟩⟩,
        state := .Idle,
        cancel_token := 0 }

/-- `MandelTexture::new`'s validation: the construction fails fatally
(modelled as `none`) unless the resolution is at least `MIN_RES`
(`assert!(tex_size >= 1024)`) and an exact multiple of `TILE_SIZE`
(`assert_eq!(tex_size % TILE_SIZE, 0)`); otherwise it produces the grid. -/
def mandelNew (R : ℕ) : Option (List Tile) :=
  if MIN_RES ≤ R ∧ R % TILE_SIZE = 0 then some (mkTiles R TILE_SIZE) else none

/-- Membership of a texture point in a tile's fixed rectangle. -/
def tileContains (t : Tile) (p : ℕ × ℕ) : Prop :=
  t.tex_rect.pos.x ≤ p.1 ∧ p.1 < t.tex_rect.pos.x + t.tex_rect.size.x ∧
  t.tex_rect.pos.y ≤ p.2 ∧ p.2 < t.tex_rect.pos.y + t.tex_rect.size.y

instance (t : Tile) (p : ℕ × ℕ) : Decidable (tileContains t p) := by
  unfold tileContains; infer_instance

/-!
## The system model

State of the whole component: the control-side fields of `MandelTexture`
plus the in-flight tasks spawned on the tokio runtime.  The interleaving
semantics `Step` makes one atomic step out of each lock-protected region of
the source: an entire `update` pass and an entire `render` pass run on the
control thread (each per-tile block holds that tile's lock), while a worker
task contributes its initial token read (`taskStart`), one unit of kernel
scan work per step (the shared counter is re-read at poll points with no
lock held), and the final lock-protected write-back (`commit` on success,
`cancelSelf` plus the `Idle` write on the kernel's error path).  Task
handles are indices into the task list; `JoinHandle::abort` only requests
abortion, and a separate `kill` step models the executor dropping a task
that has not yet been polled (a task whose body has started has no further
await points and runs to its write-back).  `committed` and `lastCommit` are
ghost fields recording which task ever wrote a buffer back and the
generation that produced the buffer currently committed to a tile.
-/

/-- Execution phase of a spawned task: not yet polled, running the kernel
loop (start-generation, next scan index, bytes produced so far), or
finished. -/
inductive TaskPhase where
  | spawned : TaskPhase
  | running : ℕ → ℕ → List ℕ → TaskPhase
  | done : TaskPhase
deriving DecidableEq, Repr

/-- One spawned computation: the kernel arguments captured at dispatch
(`img_size`, `tile_rect`, `-fractal_rect.center()`, `1/fractal_rect.size.y`),
the index of the tile it writes back to, its phase, whether
`JoinHandle::abort` was called, and the ghost commit flag. -/
structure TaskRec where
  tileIdx : ℕ
  imgSize : Vec2n
  texRect : RectN
  fOff : Vec2q
  fScale : ℚ
  phase : TaskPhase
  abortRequested : Bool
  committed : Bool
deriving DecidableEq, Repr

/-- The whole system: `MandelTexture`'s fields plus tasks and ghost data. -/
structure Sys where
  texSize : Vec2n
  windowSize : Vec2n
  tiles : List Tile
  fractal_rect : RectQ
  tasks : List TaskRec
  lastCommit : List (Option ℕ)
deriving DecidableEq, Repr

/-- Apply `f` to the `n`-th element of a list, if present. -/
def mapNth {α : Type} (f : α → α) : List α → ℕ → List α
  | [], _ => []
  | a :: l, 0 => f a :: l
  | a :: l, n + 1 => a :: mapNth f l n

/-- `Tile::fractal_rect` from `mandel_texture.rs`:
`tile_size = fractal.size * tex_rect.size / tex_size` and
`tile_pos = fractal.pos + fractal.size * tex_rect.pos / tex_size`,
componentwise. -/
def tileFRect (texSize : Vec2n) (fr : RectQ) (texRect : RectN) : RectQ :=
  ⟨⟨fr.pos.x + fr.size.x * (texRect.pos.x : ℚ) / (texSize.x : ℚ),
    fr.pos.y + fr.size.y * (texRect.pos.y : ℚ) / (texSize.y : ℚ)⟩,
   ⟨fr.size.x * (texRect.size.x : ℚ) / (texSize.x : ℚ),
    fr.size.y * (texRect.size.y : ℚ) / (texSize.y : ℚ)⟩⟩

/-- `task_handle.abort()`: mark the task's handle aborted. -/
def abortTask (tasks : List TaskRec) (tid : ℕ) : List TaskRec :=
  mapNth (fun r => { r with abortRequested := true }) tasks tid

/-- `cancel_token.fetch_add(1); ...; *tile_state = Idle` — the invalidation
performed by `update` on a tile. -/
def invalidateTile (t : Tile) : Tile :=
  { t with cancel_token := t.cancel_token + 1, state := .Idle }

/-- The task record created by the spawn in `MandelTexture::update`,
capturing `img_size`, the tile's `tex_rect` and index,
`-fractal_rect.center()` and `1.0 / fractal_rect.size.y`. -/
def newTask (texSize : Vec2n) (fr : RectQ) (tile : Tile) : TaskRec :=
  { tileIdx := tile.index, imgSize := texSize, texRect := tile.tex_rect,
    fOff := ⟨-(RectQ.center fr).x, -(RectQ.center fr).y⟩,
    fScale := 1 / fr.size.y,
    phase := .spawned, abortRequested := false, committed := false }

/-- The per-tile body of the `update` pass, translated from the closure in
`MandelTexture::update`: (1) on a scale change, bump the token, abort a
`Computing` task and force `Idle`; (2) if the tile's current fractal
rectangle does not intersect the requested frame, cancel a `Computing` task
(bump, abort, `Idle`) and stop; (3) if the tile is not `Idle`, stop;
(4) otherwise spawn a computation (fresh handle = current task-list length,
capturing `img_size`, `tex_rect`, `-fractal_rect.center()` and
`1/fractal_rect.size.y`) and move to `Computing`. -/
def tileUpdate (texSize : Vec2n) (frame fr : RectQ) (sc : Bool)
    (tile : Tile) (tasks : List TaskRec) : Tile × List TaskRec :=
  let p :=
    if sc then
      (invalidateTile tile,
        match tile.state with
        | .Computing tid => abortTask tasks tid
        | _ => tasks)
    else (tile, tasks)
  if ¬ RectQ.intersects frame (tileFRect texSize fr p.1.tex_rect) then
    match p.1.state with
    | .Computing tid => (invalidateTile p.1, abortTask p.2 tid)
    | _ => p
  else
    match p.1.state with
    | .Idle =>
      ({ p.1 with state := .Computing p.2.length }, p.2 ++ [newTask texSize fr p.1])
    | _ => p

/-- The `update` pass's iteration over the tile list, threading the task
list through the per-tile bodies in order. -/
def updGo (texSize : Vec2n) (frame fr : RectQ) (sc : Bool) :
    List Tile → List TaskRec → List Tile × List TaskRec
  | [], tasks => ([], tasks)
  | t :: ts, tasks =>
    let p := tileUpdate texSize frame fr sc t tasks
    let q := updGo texSize frame fr sc ts p.2
    (p.1 :: q.1, q.2)

/-- The texture-to-window scale ratio
`a = tex_size.x as f64 / window_size.x as f64`. -/
def scaleVal (s : Sys) : ℚ := (s.texSize.x : ℚ) / (s.windowSize.x : ℚ)

/-- The scale-change test of `MandelTexture::update`:
`(a - b).abs() > f64::EPSILON` with `a = scaleVal` and
`b = fractal_rect.size.x / frame_rect.size.x`. -/
def scaleChangedP (s : Sys) (frame : RectQ) : Prop :=
  EPS < |scaleVal s - s.fractal_rect.size.x / frame.size.x|

/-- The recomputed global rectangle on a scale change:
`RectF64::center_size(frame_rect.center(), Vec2f64::all(a * frame_rect.size.x))`. -/
def newFrRect (frame : RectQ) (s : Sys) : RectQ :=
  RectQ.center_size (RectQ.center frame)
    ⟨scaleVal s * frame.size.x, scaleVal s * frame.size.x⟩

instance (s : Sys) (frame : RectQ) : Decidable (scaleChangedP s frame) := by
  unfold scaleChangedP; infer_instance

/-- `MandelTexture::update`: recompute the global fractal rectangle when the
texture-to-window scale ratio drifts beyond `EPSILON` (centered on the
requested frame, sized `a * frame.size.x` in both axes), then run the
per-tile pass. -/
def updateFn (frame : RectQ) (s : Sys) : Sys :=
  let sc : Bool := decide (scaleChangedP s frame)
  let fr : RectQ := if sc then newFrRect frame s else s.fractal_rect
  let p := updGo s.texSize frame fr sc s.tiles s.tasks
  { s with fractal_rect := fr, tiles := p.1, tasks := p.2 }

/-- `MandelTexture::render`: every tile in `WaitForUpload` has its buffer
swapped out (handed to `queue.write_texture`) and moves to `Ready`; tiles in
any other state are skipped. -/
def renderFn (s : Sys) : Sys :=
  { s with tiles := s.tiles.map fun t =>
      match t.state with
      | .WaitForUpload _ => { t with state := .Ready }
      | _ => t }

/-- Token of tile `i` (0 if out of range; `update` never adds tiles). -/
def tokenAt (s : Sys) (i : ℕ) : ℕ := ((s.tiles[i]?).map Tile.cancel_token).getD 0

/-- State of tile `i`. -/
def stateAt (s : Sys) (i : ℕ) : TileState := ((s.tiles[i]?).map Tile.state).getD .Idle

/-- Phase of task `tid`. -/
def phaseAt (s : Sys) (tid : ℕ) : Option TaskPhase := (s.tasks[tid]?).map TaskRec.phase

/-- Tile index of task `tid`. -/
def taskTileAt (s : Sys) (tid : ℕ) : ℕ := ((s.tasks[tid]?).map TaskRec.tileIdx).getD 0

/-- Abort-requested flag of task `tid`. -/
def abortReqAt (s : Sys) (tid : ℕ) : Option Bool :=
  (s.tasks[tid]?).map TaskRec.abortRequested

/-- Ghost commit flag of task `tid`. -/
def committedAt (s : Sys) (tid : ℕ) : Option Bool :=
  (s.tasks[tid]?).map TaskRec.committed

/-- Ghost: generation of the buffer last committed to tile `i`. -/
def lastCommitAt (s : Sys) (i : ℕ) : Option ℕ := (s.lastCommit[i]?).getD none

/-- Row width of task `tid`'s tile rectangle. -/
def taskW (s : Sys) (tid : ℕ) : ℕ :=
  ((s.tasks[tid]?).map fun r => r.texRect.size.x).getD 0

/-- Pixel count of task `tid`'s tile rectangle. -/
def taskTotal (s : Sys) (tid : ℕ) : ℕ :=
  ((s.tasks[tid]?).map fun r => r.texRect.size.x * r.texRect.size.y).getD 0

/-- Task body start: the task reads the live token
(`cancel_token.load(...)` at the top of `mandelbrot`) as its generation and
begins scanning at position 0. -/
def startFn (s : Sys) (tid : ℕ) : Sys :=
  { s with tasks := mapNth (fun r =>
      { r with phase := .running (tokenAt s r.tileIdx) 0 [] }) s.tasks tid }

/-- Executor effect of `JoinHandle::abort` on a task that was never polled:
the body never runs and writes nothing. -/
def killFn (s : Sys) (tid : ℕ) : Sys :=
  { s with tasks := mapNth (fun r => { r with phase := .done }) s.tasks tid }

/-- One pixel of kernel scan work for task `tid`: append the escape byte of
the current scan position and move on. -/
def advanceFn (s : Sys) (tid : ℕ) : Sys :=
  { s with tasks := mapNth (fun r =>
      match r.phase with
      | .running gen pos acc =>
        let b := escapeByte (pixelC r.imgSize r.texRect r.fOff r.fScale
          (pos % r.texRect.size.x) (pos / r.texRect.size.x))
        { r with phase := .running gen (pos + 1) (acc ++ [b]) }
      | _ => r) s.tasks tid }

/-- Overwrite the state of tile `i`. -/
def setTileState (s : Sys) (i : ℕ) (st : TileState) : Sys :=
  { s with tiles := mapNth (fun t => { t with state := st }) s.tiles i }

/-- The kernel's cancellation path plus the task's error branch: the kernel
returns `Err("Cancelled")` at a mismatching poll and the task then takes the
tile lock and writes `Idle`. -/
def cancelFn (s : Sys) (tid : ℕ) : Sys :=
  setTileState
    { s with tasks := mapNth (fun r => { r with phase := .done }) s.tasks tid }
    (taskTileAt s tid) .Idle

/-- The task's success branch: take the tile lock and write
`WaitForUpload { buffer }` unconditionally — the source re-checks nothing
here.  Ghost fields record the commit and its generation. -/
def commitFn (s : Sys) (tid gen : ℕ) (acc : List ℕ) : Sys :=
  { s with
    tasks := mapNth (fun r => { r with phase := .done, committed := true }) s.tasks tid,
    tiles := mapNth (fun t => { t with state := .WaitForUpload acc })
      s.tiles (taskTileAt s tid),
    lastCommit := mapNth (fun _ => some gen) s.lastCommit (taskTileAt s tid) }

/-- The interleaving semantics: control-thread passes and worker-task slices
in any order. -/
inductive Step : Sys → Sys → Prop where
  | update (s : Sys) (frame : RectQ) : Step s (updateFn frame s)
  | render (s : Sys) : Step s (renderFn s)
  | start (s : Sys) (tid : ℕ) (h : phaseAt s tid = some .spawned) :
      Step s (startFn s tid)
  | kill (s : Sys) (tid : ℕ) (h : phaseAt s tid = some .spawned)
      (ha : abortReqAt s tid = some true) : Step s (killFn s tid)
  | advance (s : Sys) (tid gen pos : ℕ) (acc : List ℕ)
      (h : phaseAt s tid = some (.running gen pos acc))
      (hlt : pos < taskTotal s tid)
      (hp : pollPos (taskW s tid) pos → tokenAt s (taskTileAt s tid) = gen) :
      Step s (advanceFn s tid)
  | cancelSelf (s : Sys) (tid gen pos : ℕ) (acc : List ℕ)
      (h : phaseAt s tid = some (.running gen pos acc))
      (hlt : pos < taskTotal s tid)
      (hpoll : pollPos (taskW s tid) pos)
      (hne : tokenAt s (taskTileAt s tid) ≠ gen) :
      Step s (cancelFn s tid)
  | commit (s : Sys) (tid gen : ℕ) (acc : List ℕ)
      (h : phaseAt s tid = some (.running gen (taskTotal s tid) acc)) :
      Step s (commitFn s tid gen acc)

/-- Finite interleavings: reflexive-transitive closure of `Step`. -/
abbrev Steps : Sys → Sys → Prop := Relation.ReflTransGen Step

/-- The state right after `MandelTexture::new` (generalised over the
resolution, window size and tile size; the source hard-codes 2048, the
window, and 128): full grid, `fractal_rect` zeroed, no tasks. -/
def initSys (texSize windowSize tileSize : ℕ) : Sys :=
  { texSize := ⟨texSize, texSize⟩, windowSize := ⟨windowSize, windowSize⟩,
    tiles := mkTiles texSize tileSize,
    fractal_rect := ⟨⟨0, 0⟩, ⟨0, 0⟩⟩,
    tasks := [],
    lastCommit := List.replicate (mkTiles texSize tileSize).length none }

/-- Concrete scenario for the trace theorems: a 4×4 grid of 1×1 tiles over a
1×1 window (`initSys 4 1 1`). -/
def cfgA : Sys := initSys 4 1 1

/-- First requested frame: centered at the origin, 16×16. -/
def frameA : RectQ := ⟨⟨-8, -8⟩, ⟨16, 16⟩⟩

/-- A frame with the same scale as `frameA` but shifted so that only the
corner tile 0 is visible. -/
def frameB : RectQ := ⟨⟨-40, -40⟩, ⟨16, 16⟩⟩

/-- A frame with a different scale (8×8), triggering scale-change
invalidation. -/
def frameC : RectQ := ⟨⟨-4, -4⟩, ⟨8, 8⟩⟩

/-- The state reached by: update (scale change, dispatch), task 0 starts
(generation 1), scans its single pixel (its only poll passes), a second
scale-changing update bumps the token to 2, and then task 0 commits. -/
def c1State : Sys :=
  commitFn (updateFn frameC (advanceFn (startFn (updateFn frameA cfgA) 0) 0)) 0 1 [1]

/-- The state reached by: update (scale change), update with `frameB` (tile 0
becomes visible and is dispatched as task 4), task 4 starts, scans and
commits cleanly: tile 0 is `WaitForUpload` at its current generation. -/
def c3State : Sys :=
  commitFn (advanceFn (startFn (updateFn frameB (updateFn frameA cfgA)) 4) 4) 4 1 [1]

/-! ### Binary64 rounding

The source performs the scale comparison of `MandelTexture::update`
(lines 134-138) in `f64`. `fl` below models IEEE-754 binary64
round-to-nearest-even on exact rationals, valid in the normal range (no
overflow or subnormal handling; the concrete values used stay well inside
the normal range, where the model agrees with the hardware bit for bit). -/

def ilog2go : ℕ → ℕ → ℕ
  | 0, _ => 0
  | fuel + 1, n => if n ≤ 1 then 0 else ilog2go fuel (n / 2) + 1

def ilog2 (n : ℕ) : ℕ := ilog2go 128 n

def negExpGo : ℕ → ℚ → ℕ
  | 0, _ => 0
  | fuel + 1, x => if 1 ≤ x then 0 else negExpGo fuel (x * 2) + 1

def flExpPos (x : ℚ) : ℤ :=
  if 1 ≤ x then (ilog2 ⌊x⌋.toNat : ℤ) else -(negExpGo 1100 x : ℤ)

def pow2 : ℤ → ℚ
  | .ofNat n => 2 ^ n
  | .negSucc n => ((2 ^ (n + 1) : ℚ))⁻¹

def rne (q : ℚ) : ℤ :=
  let n := ⌊q⌋
  let fr := q - (n : ℚ)
  if fr < 1 / 2 then n
  else if 1 / 2 < fr then n + 1
  else if n % 2 = 0 then n else n + 1

def fl (q : ℚ) : ℚ :=
  if q = 0 then 0
  else if 0 < q then
    let e := flExpPos q - 52
    (rne (q / pow2 e) : ℚ) * pow2 e
  else
    let e := flExpPos (-q) - 52
    0 - (rne (-q / pow2 e) : ℚ) * pow2 e

/-- The `scale_changed` test of `MandelTexture::update` with every `f64`
operation rounded: `a = fl(tex/window)`, `b = fl(fracW/frameW)`, and the
comparison `|fl(a - b)| > f64::EPSILON`. -/
def scaleChangedF (texW winW : ℕ) (fracW frameW : ℚ) : Bool :=
  decide (EPS < |fl (fl ((texW : ℚ) / (winW : ℚ)) - fl (fracW / frameW))|)

/-- A frame width that is exactly representable in binary64. -/
def frameW64 : ℚ := 8059 / 1024

/-! ### Kernel lemmas -/

theorem mandelGo_ok_polls (w gen : ℕ) (sched pix : ℕ → ℕ) :
    ∀ fuel pos acc buf, mandelGo w gen sched pix fuel pos acc = .ok buf →
      ∀ k, k < fuel → pollPos w (pos + k) → sched (pos + k) = gen := by
  intro fuel
  induction fuel with
  | zero => intro pos acc buf _ k hk; omega
  | succ n ih =>
    intro pos acc buf hok k hk hp
    rw [mandelGo] at hok
    split at hok
    · exact absurd hok (by simp)
    · rename_i hguard
      rcases Nat.eq_zero_or_pos k with rfl | hkpos
      · by_contra hne
        exact hguard ⟨by simpa using hp, by simpa using hne⟩
      · have := ih (pos + 1) (acc ++ [pix pos]) buf hok (k - 1) (by omega)
        have harr : pos + 1 + (k - 1) = pos + k := by omega
        rw [harr] at this
        exact this hp

theorem mandelGo_err_of_mismatch (w gen : ℕ) (sched pix : ℕ → ℕ) :
    ∀ fuel pos acc, (∃ k, k < fuel ∧ pollPos w (pos + k) ∧ sched (pos + k) ≠ gen) →
      ∃ m, mandelGo w gen sched pix fuel pos acc = .error m := by
  intro fuel
  induction fuel with
  | zero => intro pos acc ⟨k, hk, _⟩; omega
  | succ n ih =>
    intro pos acc ⟨k, hk, hp, hne⟩
    rw [mandelGo]
    split
    · exact ⟨"Cancelled", rfl⟩
    · rename_i hguard
      rcases Nat.eq_zero_or_pos k with rfl | hkpos
      · exact absurd ⟨by simpa using hp, by simpa using hne⟩ hguard
      · refine ih (pos + 1) (acc ++ [pix pos]) ⟨k - 1, by omega, ?_, ?_⟩ <;>
          rw [show pos + 1 + (k - 1) = pos + k by omega] <;> assumption

theorem mandelGo_ok_buf (w gen : ℕ) (sched pix : ℕ → ℕ) :
    ∀ fuel pos acc buf, mandelGo w gen sched pix fuel pos acc = .ok buf →
      buf = acc ++ (List.range fuel).map (fun k => pix (pos + k)) := by
  intro fuel
  induction fuel with
  | zero =>
    intro pos acc buf hok
    rw [mandelGo] at hok
    simpa using hok.symm
  | succ n ih =>
    intro pos acc buf hok
    rw [mandelGo] at hok
    split at hok
    · exact absurd hok (by simp)
    · have := ih (pos + 1) (acc ++ [pix pos]) buf hok
      rw [this, List.range_succ_eq_map]
      simp [List.map_map, Function.comp, Nat.add_comm, Nat.add_left_comm, Nat.add_assoc]

theorem mandelbrot_ok_get (img : Vec2n) (tileR : RectN) (fOff : Vec2q)
    (fScale : ℚ) (gen : ℕ) (sched : ℕ → ℕ) (buf : List ℕ)
    (hok : mandelbrot img tileR fOff fScale gen sched = .ok buf) :
    buf.length = tileR.size.x * tileR.size.y ∧
    ∀ pos, pos < tileR.size.x * tileR.size.y →
      buf[pos]? = some (escapeByte
        (pixelC img tileR fOff fScale (pos % tileR.size.x) (pos / tileR.size.x))) := by
  have hbuf := mandelGo_ok_buf _ _ _ _ _ _ _ _ hok
  simp only [List.nil_append] at hbuf
  subst hbuf
  constructor
  · simp
  · intro pos hpos
    rw [List.getElem?_map, List.getElem?_range hpos]
    simp

theorem poll_gap (w h pos : ℕ) (hpos : pos < w * h) :
    ∃ p, p ≤ pos ∧ pos - p < 32 ∧ pollPos w p := by
  have hw : 0 < w := by
    rcases Nat.eq_zero_or_pos w with rfl | h
    · simp at hpos
    · exact h
  refine ⟨pos - pos % w % 32, by omega, ?_, ?_⟩
  · have h1 : pos % w % 32 < 32 := Nat.mod_lt _ (by norm_num)
    have h2 : pos % w % 32 ≤ pos := le_trans (Nat.mod_le _ _) (Nat.mod_le _ _)
    omega
  · have hd := Nat.div_add_mod pos w
    have hd32 := Nat.div_add_mod (pos % w) 32
    have h1 : pos - pos % w % 32 = pos % w - pos % w % 32 + w * (pos / w) := by omega
    have h2 : pos % w - pos % w % 32 = 32 * (pos % w / 32) := by omega
    unfold pollPos
    rw [h1, Nat.add_mul_mod_self_left, h2]
    have h3 : 32 * (pos % w / 32) % w = 32 * (pos % w / 32) :=
      Nat.mod_eq_of_lt (lt_of_le_of_lt (by omega : 32 * (pos % w / 32) ≤ pos % w)
        (Nat.mod_lt _ hw))
    rw [h3]
    exact Nat.mul_mod_right 32 _

set_option maxRecDepth 40000 in
theorem mandel_2x2_eval :
    mandelbrot ⟨2, 2⟩ ⟨⟨1, 1⟩, ⟨1, 1⟩⟩ ⟨-(37 / 50), 0⟩ 1 0 (fun _ => 0) = .ok [1] := rfl

set_option maxRecDepth 40000 in
theorem escapeCount_zero : escapeCount ⟨0, 0⟩ = 257 := rfl

/-- C8: the kernel polls the live token at scan positions with `x % 32 = 0`
(so every pixel is computed within 32 units of scan work after a poll), a
returned buffer implies every poll matched the start generation, and any
mismatching poll makes the kernel return a cancellation error with no
buffer. -/
theorem c8_poll_granularity_and_cancellation (img : Vec2n) (tileR : RectN)
    (fOff : Vec2q) (fScale : ℚ) (gen : ℕ) (sched : ℕ → ℕ) :
    (∀ buf, mandelbrot img tileR fOff fScale gen sched = .ok buf →
      ∀ p, p < tileR.size.x * tileR.size.y → pollPos tileR.size.x p → sched p = gen) ∧
    ((∃ p, p < tileR.size.x * tileR.size.y ∧ pollPos tileR.size.x p ∧ sched p ≠ gen) →
      ∃ m, mandelbrot img tileR fOff fScale gen sched = .error m) ∧
    (∀ pos, pos < tileR.size.x * tileR.size.y →
      ∃ p, p ≤ pos ∧ pos - p < 32 ∧ pollPos tileR.size.x p) := by
  refine ⟨?_, ?_, ?_⟩
  · intro buf hok p hp hpoll
    have h1 := mandelGo_ok_polls _ _ _ _ _ _ _ _ hok p hp
    have h2 := h1 (by simpa using hpoll)
    simpa using h2
  · intro ⟨p, hp, hpoll, hne⟩
    exact mandelGo_err_of_mismatch _ _ _ _ _ _ _ ⟨p, hp, by simpa using hpoll, by simpa using hne⟩
  · exact fun pos hpos => poll_gap _ _ _ hpos

/-- Closed witness for `c8_poll_granularity_and_cancellation`: on a 1×1 tile
whose single poll mismatches, the kernel returns an error. -/
theorem c8_witness :
    mandelbrot ⟨2, 2⟩ ⟨⟨1, 1⟩, ⟨1, 1⟩⟩ ⟨-(37 / 50), 0⟩ 1 0 (fun _ => 0) = .ok [1] ∧
    (fun _ : ℕ => (0 : ℕ)) 0 = 0 ∧ pollPos 1 0 := by
  refine ⟨mandel_2x2_eval, ?_, by decide⟩
  exact (c8_poll_granularity_and_cancellation ⟨2, 2⟩ ⟨⟨1, 1⟩, ⟨1, 1⟩⟩ ⟨-(37 / 50), 0⟩ 1 0
    (fun _ => 0)).1 [1] mandel_2x2_eval 0 (by decide) (by decide)

/-- C4, counterexample: at the pixel whose point is exactly `c = (0, 0)`
(a never-escaping point, computed exactly by the floating-point source as
well), the kernel stores `257 as u8 = 1`, not the cap `255` that the claim
requires for a non-escaping point. -/
theorem c4_counterexample :
    mandelbrot ⟨2, 2⟩ ⟨⟨1, 1⟩, ⟨1, 1⟩⟩ ⟨-(37 / 50), 0⟩ 1 0 (fun _ => 0) = .ok [1] ∧
    pixelC ⟨2, 2⟩ ⟨⟨1, 1⟩, ⟨1, 1⟩⟩ ⟨-(37 / 50), 0⟩ 1 0 0 = ⟨0, 0⟩ ∧
    escapeCount ⟨0, 0⟩ = 257 ∧
    min (escapeCount ⟨0, 0⟩) 255 = 255 ∧ (1 : ℕ) ≠ 255 := by
  refine ⟨mandel_2x2_eval, by decide, escapeCount_zero, ?_, by decide⟩
  rw [escapeCount_zero]
  decide

/-- C4, amended: a buffer returned by the kernel has exactly
`tile_width × tile_height` bytes, one per pixel, and each byte is the escape
iteration count reduced mod 256 (`it as u8`): the count is not capped at
255 — a never-escaping point runs the loop to `it = 257` and stores
`257 % 256 = 1`. -/
theorem c4_amended_buffer_bytes (img : Vec2n) (tileR : RectN) (fOff : Vec2q)
    (fScale : ℚ) (gen : ℕ) (sched : ℕ → ℕ) (buf : List ℕ)
    (hok : mandelbrot img tileR fOff fScale gen sched = .ok buf) :
    buf.length = tileR.size.x * tileR.size.y ∧
    ∀ pos, pos < tileR.size.x * tileR.size.y →
      buf[pos]? = some (escapeCount
        (pixelC img tileR fOff fScale (pos % tileR.size.x) (pos / tileR.size.x)) % 256) :=
  mandelbrot_ok_get img tileR fOff fScale gen sched buf hok

set_option maxRecDepth 40000 in
/-- Closed witness for `c4_amended_buffer_bytes` at the concrete 1×1 tile. -/
theorem c4_amended_witness :
    mandelbrot ⟨2, 2⟩ ⟨⟨1, 1⟩, ⟨1, 1⟩⟩ ⟨-(37 / 50), 0⟩ 1 0 (fun _ => 0) = .ok [1] ∧
    ([1] : List ℕ).length = 1 ∧ ([1] : List ℕ)[0]? = some 1 := by
  refine ⟨mandel_2x2_eval, ?_⟩
  have h := c4_amended_buffer_bytes ⟨2, 2⟩ ⟨⟨1, 1⟩, ⟨1, 1⟩⟩ ⟨-(37 / 50), 0⟩ 1 0
    (fun _ => 0) [1] mandel_2x2_eval
  have h0 := h.2 0 (by decide)
  refine ⟨by simpa using h.1, ?_⟩
  rw [h0]
  rfl

/-- C10: the kernel shifts the supplied fractal offset by the hard-coded
constant `0.74` in `x` before evaluating the divergence test: the point for
pixel `(x, y)` is
`c = (((x+pos.x)/width − 1/2)/scale − (offset.x + 0.74),
      ((y+pos.y)/height − 1/2)/scale − offset.y)`. -/
theorem c10_pixel_formula (img : Vec2n) (tileR : RectN) (fOff : Vec2q)
    (fScale : ℚ) (gen : ℕ) (sched : ℕ → ℕ) (buf : List ℕ) (x y : ℕ)
    (hok : mandelbrot img tileR fOff fScale gen sched = .ok buf)
    (hx : x < tileR.size.x) (hy : y < tileR.size.y) :
    buf[y * tileR.size.x + x]? = some (escapeByte
      ⟨(((x + tileR.pos.x : ℕ) : ℚ) / (img.x : ℚ) - 1 / 2) / fScale - (fOff.x + 37 / 50),
       (((y + tileR.pos.y : ℕ) : ℚ) / (img.y : ℚ) - 1 / 2) / fScale - fOff.y⟩) := by
  have hlt : y * tileR.size.x + x < tileR.size.x * tileR.size.y := by
    calc y * tileR.size.x + x < y * tileR.size.x + tileR.size.x := by omega
    _ = (y + 1) * tileR.size.x := by ring
    _ ≤ tileR.size.y * tileR.size.x := Nat.mul_le_mul_right _ (by omega)
    _ = tileR.size.x * tileR.size.y := Nat.mul_comm _ _
  have hw : 0 < tileR.size.x := by omega
  have hmod : (y * tileR.size.x + x) % tileR.size.x = x := by
    rw [Nat.mul_comm y tileR.size.x, Nat.mul_add_mod, Nat.mod_eq_of_lt hx]
  have hdiv : (y * tileR.size.x + x) / tileR.size.x = y := by
    rw [Nat.mul_comm y tileR.size.x, Nat.mul_add_div hw, Nat.div_eq_of_lt hx]
    omega
  have h := (mandelbrot_ok_get img tileR fOff fScale gen sched buf hok).2
    (y * tileR.size.x + x) hlt
  rw [hmod, hdiv] at h
  rw [h]
  rfl

/-- Closed witness for `c10_pixel_formula` at the concrete 1×1 tile. -/
theorem c10_witness :
    mandelbrot ⟨2, 2⟩ ⟨⟨1, 1⟩, ⟨1, 1⟩⟩ ⟨-(37 / 50), 0⟩ 1 0 (fun _ => 0) = .ok [1] ∧
    ([1] : List ℕ)[0]? = some (escapeByte
      ⟨(((0 + 1 : ℕ) : ℚ) / (2 : ℚ) - 1 / 2) / 1 - (-(37 / 50) + 37 / 50),
       (((0 + 1 : ℕ) : ℚ) / (2 : ℚ) - 1 / 2) / 1 - 0⟩) := by
  refine ⟨mandel_2x2_eval, ?_⟩
  have h := c10_pixel_formula ⟨2, 2⟩ ⟨⟨1, 1⟩, ⟨1, 1⟩⟩ ⟨-(37 / 50), 0⟩ 1 0
    (fun _ => 0) [1] 0 0 mandel_2x2_eval (by decide) (by decide)
  simpa using h

/-! ### Construction: C7 -/

theorem mem_mkTiles (R T : ℕ) (t : Tile) :
    t ∈ mkTiles R T ↔ ∃ i j, i < R / T ∧ j < R / T ∧
      t = { index := i * (R / T) + j, tex_rect := ⟨⟨i * T, j * T⟩, ⟨T, T⟩⟩,
            state := .Idle, cancel_token := 0 } := by
  unfold mkTiles
  simp only [List.mem_bind, List.mem_map, List.mem_range]
  constructor
  · rintro ⟨i, hi, j, hj, rfl⟩
    exact ⟨i, j, hi, hj, rfl⟩
  · rintro ⟨i, j, hi, hj, rfl⟩
    exact ⟨i, hi, j, hj, rfl⟩

theorem mkTiles_length (R T : ℕ) : (mkTiles R T).length = (R / T) * (R / T) := by
  unfold mkTiles
  simp [List.length_bind, Function.comp_def]

/-- C7: for a resolution `R` that is a positive multiple of the tile size
`T` with `R/T ≥ 1`, the grid has exactly `(R/T)²` tiles, and every point of
`[0,R)²` lies in exactly one tile (joint cover and pairwise disjointness);
construction (`mandelNew`) fails fatally exactly when `R` is below the
minimum or not an exact multiple of `TILE_SIZE`. -/
theorem c7_partition_and_construction (R T : ℕ) (hT : 0 < T) (hdvd : T ∣ R)
    (hRT : T ≤ R) :
    ((mkTiles R T).length = (R / T) * (R / T) ∧
      ∀ p : ℕ × ℕ, p.1 < R → p.2 < R →
        ∃! t, t ∈ mkTiles R T ∧ tileContains t p) ∧
    (∀ S, S < MIN_RES ∨ S % TILE_SIZE ≠ 0 → mandelNew S = none) ∧
    (∀ S, MIN_RES ≤ S → S % TILE_SIZE = 0 → mandelNew S = some (mkTiles S TILE_SIZE)) := by
  have hmul : T * (R / T) = R := Nat.mul_div_cancel' hdvd
  refine ⟨⟨mkTiles_length R T, ?_⟩, ?_, ?_⟩
  · rintro ⟨px, py⟩ hx hy
    have hix : px / T < R / T := by
      rw [Nat.div_lt_iff_lt_mul hT, Nat.mul_comm, hmul]
      exact hx
    have hiy : py / T < R / T := by
      rw [Nat.div_lt_iff_lt_mul hT, Nat.mul_comm, hmul]
      exact hy
    have hdx : px / T * T + px % T = px := by
      have h := Nat.div_add_mod px T
      rw [Nat.mul_comm] at h
      exact h
    have hdy : py / T * T + py % T = py := by
      have h := Nat.div_add_mod py T
      rw [Nat.mul_comm] at h
      exact h
    have hmx : px % T < T := Nat.mod_lt _ hT
    have hmy : py % T < T := Nat.mod_lt _ hT
    refine ⟨{ index := px / T * (R / T) + py / T,
              tex_rect := ⟨⟨px / T * T, py / T * T⟩, ⟨T, T⟩⟩,
              state := .Idle, cancel_token := 0 }, ⟨?_, ?_⟩, ?_⟩
    · exact (mem_mkTiles R T _).mpr ⟨px / T, py / T, hix, hiy, rfl⟩
    · refine ⟨?_, ?_, ?_, ?_⟩ <;> simp only [] <;> omega
    · rintro t ⟨hmem, hcont⟩
      obtain ⟨i, j, hi, hj, rfl⟩ := (mem_mkTiles R T t).mp hmem
      obtain ⟨h1, h2, h3, h4⟩ := hcont
      simp only [] at h1 h2 h3 h4
      have hieq : px / T = i := Nat.div_eq_of_lt_le (by omega) (by simpa [Nat.succ_mul] using h2)
      have hjeq : py / T = j := Nat.div_eq_of_lt_le (by omega) (by simpa [Nat.succ_mul] using h4)
      rw [hieq, hjeq]
  · intro S hS
    unfold mandelNew
    rw [if_neg]
    omega
  · intro S h1 h2
    unfold mandelNew
    rw [if_pos ⟨h1, h2⟩]

/-- Closed witness for `c7_partition_and_construction` at `R = 256`,
`T = 128`, together with the construction branches at `1000` and `2048`. -/
theorem c7_witness :
    (mkTiles 256 128).length = 4 ∧ mandelNew 1000 = none ∧
    mandelNew 2048 = some (mkTiles 2048 128) := by
  have h := c7_partition_and_construction 256 128 (by decide) (by decide) (by decide)
  exact ⟨by simpa using h.1.1, h.2.1 1000 (by decide), h.2.2 2048 (by decide) (by decide)⟩

/-! ### List surgery lemmas -/

theorem mapNth_length {α : Type} (f : α → α) :
    ∀ (l : List α) (n : ℕ), (mapNth f l n).length = l.length := by
  intro l
  induction l with
  | nil => intro n; rfl
  | cons a l ih =>
    intro n
    cases n with
    | zero => rfl
    | succ m => simp [mapNth, ih]

theorem getElem?_mapNth_eq {α : Type} (f : α → α) :
    ∀ (l : List α) (n : ℕ), (mapNth f l n)[n]? = (l[n]?).map f := by
  intro l
  induction l with
  | nil => intro n; cases n <;> rfl
  | cons a l ih =>
    intro n
    cases n with
    | zero => simp [mapNth]
    | succ m => simpa [mapNth] using ih m

theorem getElem?_mapNth_ne {α : Type} (f : α → α) :
    ∀ (l : List α) (n m : ℕ), n ≠ m → (mapNth f l n)[m]? = l[m]? := by
  intro l
  induction l with
  | nil => intro n m _; cases n <;> rfl
  | cons a l ih =>
    intro n m hnm
    cases n with
    | zero =>
      cases m with
      | zero => exact absurd rfl hnm
      | succ k => simp [mapNth]
    | succ j =>
      cases m with
      | zero => simp [mapNth]
      | succ k => simpa [mapNth] using ih j k (by omega)

/-- Projection of the task fields that `update` never modifies (everything
except the `abortRequested` flag). -/
def taskCore (r : TaskRec) : ℕ × Vec2n × RectN × Vec2q × ℚ × TaskPhase × Bool :=
  (r.tileIdx, r.imgSize, r.texRect, r.fOff, r.fScale, r.phase, r.committed)

theorem abortTask_length (tasks : List TaskRec) (tid : ℕ) :
    (abortTask tasks tid).length = tasks.length :=
  mapNth_length _ tasks tid

theorem abortTask_core (tasks : List TaskRec) (tid k : ℕ) :
    ((abortTask tasks tid)[k]?).map taskCore = (tasks[k]?).map taskCore := by
  rcases eq_or_ne tid k with rfl | hne
  · rw [abortTask, getElem?_mapNth_eq]
    cases tasks[tid]? <;> rfl
  · rw [abortTask, getElem?_mapNth_ne _ _ _ _ hne]

theorem abortTask_flag_true (tasks : List TaskRec) (tid k : ℕ)
    (h : (tasks[k]?).map TaskRec.abortRequested = some true) :
    ((abortTask tasks tid)[k]?).map TaskRec.abortRequested = some true := by
  rcases eq_or_ne tid k with rfl | hne
  · rw [abortTask, getElem?_mapNth_eq]
    cases htk : tasks[tid]? with
    | none => rw [htk] at h; exact absurd h (by simp)
    | some r => rfl
  · rwa [abortTask, getElem?_mapNth_ne _ _ _ _ hne]

theorem abortTask_sets (tasks : List TaskRec) (tid : ℕ) (htid : tid < tasks.length) :
    ((abortTask tasks tid)[tid]?).map TaskRec.abortRequested = some true := by
  rw [abortTask, getElem?_mapNth_eq]
  rw [List.getElem?_eq_getElem htid]
  rfl

/-! ### `tileUpdate` and `updGo` lemmas -/

theorem tileUpdate_false_inv_comp (texSize : Vec2n) (frame fr : RectQ)
    (tile : Tile) (tasks : List TaskRec) (tid : ℕ)
    (hint : ¬ RectQ.intersects frame (tileFRect texSize fr tile.tex_rect))
    (hst : tile.state = .Computing tid) :
    tileUpdate texSize frame fr false tile tasks =
      (invalidateTile tile, abortTask tasks tid) := by
  simp [tileUpdate, hst, hint]

theorem tileUpdate_false_inv_other (texSize : Vec2n) (frame fr : RectQ)
    (tile : Tile) (tasks : List TaskRec)
    (hint : ¬ RectQ.intersects frame (tileFRect texSize fr tile.tex_rect))
    (hst : ∀ tid, tile.state ≠ .Computing tid) :
    tileUpdate texSize frame fr false tile tasks = (tile, tasks) := by
  cases h : tile.state with
  | Computing tid => exact absurd h (hst tid)
  | Idle => simp [tileUpdate, h, hint]
  | WaitForUpload b => simp [tileUpdate, h, hint]
  | Ready => simp [tileUpdate, h, hint]

theorem tileUpdate_false_vis_idle (texSize : Vec2n) (frame fr : RectQ)
    (tile : Tile) (tasks : List TaskRec)
    (hint : RectQ.intersects frame (tileFRect texSize fr tile.tex_rect))
    (hst : tile.state = .Idle) :
    tileUpdate texSize frame fr false tile tasks =
      ({ tile with state := .Computing tasks.length },
        tasks ++ [newTask texSize fr tile]) := by
  simp [tileUpdate, hst, hint]

theorem tileUpdate_false_vis_other (texSize : Vec2n) (frame fr : RectQ)
    (tile : Tile) (tasks : List TaskRec)
    (hint : RectQ.intersects frame (tileFRect texSize fr tile.tex_rect))
    (hst : tile.state ≠ .Idle) :
    tileUpdate texSize frame fr false tile tasks = (tile, tasks) := by
  cases h : tile.state with
  | Idle => exact absurd h hst
  | Computing tid => simp [tileUpdate, h, hint]
  | WaitForUpload b => simp [tileUpdate, h, hint]
  | Ready => simp [tileUpdate, h, hint]

theorem tileUpdate_true_inv_comp (texSize : Vec2n) (frame fr : RectQ)
    (tile : Tile) (tasks : List TaskRec) (tid : ℕ)
    (hint : ¬ RectQ.intersects frame (tileFRect texSize fr tile.tex_rect))
    (hst : tile.state = .Computing tid) :
    tileUpdate texSize frame fr true tile tasks =
      (invalidateTile tile, abortTask tasks tid) := by
  simp [tileUpdate, hst, invalidateTile, hint]

theorem tileUpdate_true_inv_other (texSize : Vec2n) (frame fr : RectQ)
    (tile : Tile) (tasks : List TaskRec)
    (hint : ¬ RectQ.intersects frame (tileFRect texSize fr tile.tex_rect))
    (hst : ∀ tid, tile.state ≠ .Computing tid) :
    tileUpdate texSize frame fr true tile tasks = (invalidateTile tile, tasks) := by
  cases h : tile.state with
  | Computing tid => exact absurd h (hst tid)
  | Idle => simp [tileUpdate, h, invalidateTile, hint]
  | WaitForUpload b => simp [tileUpdate, h, invalidateTile, hint]
  | Ready => simp [tileUpdate, h, invalidateTile, hint]

theorem tileUpdate_true_vis_comp (texSize : Vec2n) (frame fr : RectQ)
    (tile : Tile) (tasks : List TaskRec) (tid : ℕ)
    (hint : RectQ.intersects frame (tileFRect texSize fr tile.tex_rect))
    (hst : tile.state = .Computing tid) :
    tileUpdate texSize frame fr true tile tasks =
      ({ tile with cancel_token := tile.cancel_token + 1,
                   state := .Computing tasks.length },
        abortTask tasks tid ++ [newTask texSize fr tile]) := by
  simp [tileUpdate, hst, invalidateTile, hint, abortTask_length, newTask]

theorem tileUpdate_true_vis_other (texSize : Vec2n) (frame fr : RectQ)
    (tile : Tile) (tasks : List TaskRec)
    (hint : RectQ.intersects frame (tileFRect texSize fr tile.tex_rect))
    (hst : ∀ tid, tile.state ≠ .Computing tid) :
    tileUpdate texSize frame fr true tile tasks =
      ({ tile with cancel_token := tile.cancel_token + 1,
                   state := .Computing tasks.length },
        tasks ++ [newTask texSize fr tile]) := by
  cases h : tile.state with
  | Computing tid => exact absurd h (hst tid)
  | Idle => simp [tileUpdate, h, invalidateTile, hint, newTask]
  | WaitForUpload b => simp [tileUpdate, h, invalidateTile, hint, newTask]
  | Ready => simp [tileUpdate, h, invalidateTile, hint, newTask]

theorem tileUpdate_tasks_shape (texSize : Vec2n) (frame fr : RectQ) (sc : Bool)
    (tile : Tile) (tasks : List TaskRec) :
    ∃ pre app, (tileUpdate texSize frame fr sc tile tasks).2 = pre ++ app ∧
      (pre = tasks ∨ ∃ tid, pre = abortTask tasks tid) := by
  by_cases hint : RectQ.intersects frame (tileFRect texSize fr tile.tex_rect)
  · cases sc with
    | false =>
      by_cases hst : tile.state = .Idle
      · rw [tileUpdate_false_vis_idle _ _ _ _ _ hint hst]
        exact ⟨tasks, [newTask texSize fr tile], rfl, Or.inl rfl⟩
      · rw [tileUpdate_false_vis_other _ _ _ _ _ hint hst]
        exact ⟨tasks, [], by simp, Or.inl rfl⟩
    | true =>
      cases h : tile.state with
      | Computing tid =>
        rw [tileUpdate_true_vis_comp _ _ _ _ _ _ hint h]
        exact ⟨abortTask tasks tid, [newTask texSize fr tile], rfl, Or.inr ⟨tid, rfl⟩⟩
      | Idle =>
        rw [tileUpdate_true_vis_other _ _ _ _ _ hint (by simp [h])]
        exact ⟨tasks, [newTask texSize fr tile], rfl, Or.inl rfl⟩
      | WaitForUpload b =>
        rw [tileUpdate_true_vis_other _ _ _ _ _ hint (by simp [h])]
        exact ⟨tasks, [newTask texSize fr tile], rfl, Or.inl rfl⟩
      | Ready =>
        rw [tileUpdate_true_vis_other _ _ _ _ _ hint (by simp [h])]
        exact ⟨tasks, [newTask texSize fr tile], rfl, Or.inl rfl⟩
  · cases h : tile.state with
    | Computing tid =>
      cases sc with
      | false =>
        rw [tileUpdate_false_inv_comp _ _ _ _ _ _ hint h]
        exact ⟨abortTask tasks tid, [], by simp, Or.inr ⟨tid, rfl⟩⟩
      | true =>
        rw [tileUpdate_true_inv_comp _ _ _ _ _ _ hint h]
        exact ⟨abortTask tasks tid, [], by simp, Or.inr ⟨tid, rfl⟩⟩
    | Idle =>
      cases sc with
      | false =>
        rw [tileUpdate_false_inv_other _ _ _ _ _ hint (by simp [h])]
        exact ⟨tasks, [], by simp, Or.inl rfl⟩
      | true =>
        rw [tileUpdate_true_inv_other _ _ _ _ _ hint (by simp [h])]
        exact ⟨tasks, [], by simp, Or.inl rfl⟩
    | WaitForUpload b =>
      cases sc with
      | false =>
        rw [tileUpdate_false_inv_other _ _ _ _ _ hint (by simp [h])]
        exact ⟨tasks, [], by simp, Or.inl rfl⟩
      | true =>
        rw [tileUpdate_true_inv_other _ _ _ _ _ hint (by simp [h])]
        exact ⟨tasks, [], by simp, Or.inl rfl⟩
    | Ready =>
      cases sc with
      | false =>
        rw [tileUpdate_false_inv_other _ _ _ _ _ hint (by simp [h])]
        exact ⟨tasks, [], by simp, Or.inl rfl⟩
      | true =>
        rw [tileUpdate_true_inv_other _ _ _ _ _ hint (by simp [h])]
        exact ⟨tasks, [], by simp, Or.inl rfl⟩

theorem tileUpdate_tasks_length (texSize : Vec2n) (frame fr : RectQ) (sc : Bool)
    (tile : Tile) (tasks : List TaskRec) :
    tasks.length ≤ (tileUpdate texSize frame fr sc tile tasks).2.length := by
  obtain ⟨pre, app, heq, hpre⟩ := tileUpdate_tasks_shape texSize frame fr sc tile tasks
  rw [heq, List.length_append]
  rcases hpre with rfl | ⟨tid, rfl⟩
  · omega
  · rw [abortTask_length]; omega

theorem tileUpdate_tasks_core (texSize : Vec2n) (frame fr : RectQ) (sc : Bool)
    (tile : Tile) (tasks : List TaskRec) (k : ℕ) (hk : k < tasks.length) :
    (((tileUpdate texSize frame fr sc tile tasks).2)[k]?).map taskCore =
      (tasks[k]?).map taskCore := by
  obtain ⟨pre, app, heq, hpre⟩ := tileUpdate_tasks_shape texSize frame fr sc tile tasks
  rw [heq]
  rcases hpre with rfl | ⟨tid, rfl⟩
  · rw [List.getElem?_append_left hk]
  · rw [List.getElem?_append_left (by rw [abortTask_length]; exact hk)]
    exact abortTask_core tasks tid k

theorem tileUpdate_abort_mono (texSize : Vec2n) (frame fr : RectQ) (sc : Bool)
    (tile : Tile) (tasks : List TaskRec) (k : ℕ)
    (h : (tasks[k]?).map TaskRec.abortRequested = some true) :
    (((tileUpdate texSize frame fr sc tile tasks).2)[k]?).map TaskRec.abortRequested =
      some true := by
  have hk : k < tasks.length := by
    cases htk : tasks[k]? with
    | none => rw [htk] at h; exact absurd h (by simp)
    | some r => exact (List.getElem?_eq_some_iff.mp htk).1
  obtain ⟨pre, app, heq, hpre⟩ := tileUpdate_tasks_shape texSize frame fr sc tile tasks
  rw [heq]
  rcases hpre with rfl | ⟨tid, rfl⟩
  · rw [List.getElem?_append_left hk]; exact h
  · rw [List.getElem?_append_left (by rw [abortTask_length]; exact hk)]
    exact abortTask_flag_true tasks tid k h

theorem tileUpdate_tile_facts (texSize : Vec2n) (frame fr : RectQ) (sc : Bool)
    (tile : Tile) (tasks : List TaskRec) :
    ((tileUpdate texSize frame fr sc tile tasks).1.index = tile.index ∧
     (tileUpdate texSize frame fr sc tile tasks).1.tex_rect = tile.tex_rect) ∧
    ((tileUpdate texSize frame fr sc tile tasks).1.cancel_token = tile.cancel_token ∨
     (tileUpdate texSize frame fr sc tile tasks).1.cancel_token = tile.cancel_token + 1) ∧
    (sc = true →
      (tileUpdate texSize frame fr sc tile tasks).1.cancel_token = tile.cancel_token + 1 ∧
      ((tileUpdate texSize frame fr sc tile tasks).1.state = .Idle ∨
       (tileUpdate texSize frame fr sc tile tasks).1.state = .Computing tasks.length)) ∧
    (¬ RectQ.intersects frame (tileFRect texSize fr tile.tex_rect) →
      (∀ tid, (tileUpdate texSize frame fr sc tile tasks).1.state ≠ .Computing tid) ∧
      (∀ tid, tile.state = .Computing tid →
        (tileUpdate texSize frame fr sc tile tasks).1.state = .Idle ∧
        (tileUpdate texSize frame fr sc tile tasks).1.cancel_token = tile.cancel_token + 1)) ∧
    ((tileUpdate texSize frame fr sc tile tasks).1.state = tile.state ∨
     (tileUpdate texSize frame fr sc tile tasks).1.state = .Idle ∨
     ((tileUpdate texSize frame fr sc tile tasks).1.state = .Computing tasks.length ∧
      (tile.state = .Idle ∨ sc = true))) ∧
    (RectQ.intersects frame (tileFRect texSize fr tile.tex_rect) →
      (tileUpdate texSize frame fr sc tile tasks).1.state ≠ .Idle) := by
  by_cases hint : RectQ.intersects frame (tileFRect texSize fr tile.tex_rect)
  · cases sc with
    | false =>
      by_cases hst : tile.state = .Idle
      · rw [tileUpdate_false_vis_idle _ _ _ _ _ hint hst]
        refine ⟨⟨rfl, rfl⟩, Or.inl rfl, by simp, fun h => absurd hint h,
          Or.inr (Or.inr ⟨rfl, Or.inl hst⟩), by simp⟩
      · rw [tileUpdate_false_vis_other _ _ _ _ _ hint hst]
        exact ⟨⟨rfl, rfl⟩, Or.inl rfl, by simp, fun h => absurd hint h, Or.inl rfl,
          fun _ => hst⟩
    | true =>
      cases h : tile.state with
      | Computing tid =>
        rw [tileUpdate_true_vis_comp _ _ _ _ _ _ hint h]
        exact ⟨⟨rfl, rfl⟩, Or.inr rfl, fun _ => ⟨rfl, Or.inr rfl⟩,
          fun hn => absurd hint hn, Or.inr (Or.inr ⟨rfl, Or.inr rfl⟩), by simp⟩
      | Idle =>
        rw [tileUpdate_true_vis_other _ _ _ _ _ hint (by simp [h])]
        exact ⟨⟨rfl, rfl⟩, Or.inr rfl, fun _ => ⟨rfl, Or.inr rfl⟩,
          fun hn => absurd hint hn, Or.inr (Or.inr ⟨rfl, Or.inr rfl⟩), by simp⟩
      | WaitForUpload b =>
        rw [tileUpdate_true_vis_other _ _ _ _ _ hint (by simp [h])]
        exact ⟨⟨rfl, rfl⟩, Or.inr rfl, fun _ => ⟨rfl, Or.inr rfl⟩,
          fun hn => absurd hint hn, Or.inr (Or.inr ⟨rfl, Or.inr rfl⟩), by simp⟩
      | Ready =>
        rw [tileUpdate_true_vis_other _ _ _ _ _ hint (by simp [h])]
        exact ⟨⟨rfl, rfl⟩, Or.inr rfl, fun _ => ⟨rfl, Or.inr rfl⟩,
          fun hn => absurd hint hn, Or.inr (Or.inr ⟨rfl, Or.inr rfl⟩), by simp⟩
  · cases sc with
    | false =>
      cases h : tile.state with
      | Computing tid =>
        rw [tileUpdate_false_inv_comp _ _ _ _ _ _ hint h]
        refine ⟨⟨rfl, rfl⟩, Or.inr rfl, by simp, ?_, Or.inr (Or.inl rfl),
          fun hv => absurd hv hint⟩
        exact fun _ => ⟨by simp [invalidateTile], fun tid' _ => ⟨rfl, rfl⟩⟩
      | Idle =>
        rw [tileUpdate_false_inv_other _ _ _ _ _ hint (by simp [h])]
        refine ⟨⟨rfl, rfl⟩, Or.inl rfl, by simp, ?_, Or.inl h, fun hv => absurd hv hint⟩
        exact fun _ => ⟨by simp [h], fun tid' hc => absurd hc (by simp [h])⟩
      | WaitForUpload b =>
        rw [tileUpdate_false_inv_other _ _ _ _ _ hint (by simp [h])]
        refine ⟨⟨rfl, rfl⟩, Or.inl rfl, by simp, ?_, Or.inl h, fun hv => absurd hv hint⟩
        exact fun _ => ⟨by simp [h], fun tid' hc => absurd hc (by simp [h])⟩
      | Ready =>
        rw [tileUpdate_false_inv_other _ _ _ _ _ hint (by simp [h])]
        refine ⟨⟨rfl, rfl⟩, Or.inl rfl, by simp, ?_, Or.inl h, fun hv => absurd hv hint⟩
        exact fun _ => ⟨by simp [h], fun tid' hc => absurd hc (by simp [h])⟩
    | true =>
      cases h : tile.state with
      | Computing tid =>
        rw [tileUpdate_true_inv_comp _ _ _ _ _ _ hint h]
        refine ⟨⟨rfl, rfl⟩, Or.inr rfl, fun _ => ⟨rfl, Or.inl rfl⟩, ?_, Or.inr (Or.inl rfl),
          fun hv => absurd hv hint⟩
        exact fun _ => ⟨by simp [invalidateTile], fun tid' _ => ⟨rfl, rfl⟩⟩
      | Idle =>
        rw [tileUpdate_true_inv_other _ _ _ _ _ hint (by simp [h])]
        refine ⟨⟨rfl, rfl⟩, Or.inr rfl, fun _ => ⟨rfl, Or.inl rfl⟩, ?_, Or.inr (Or.inl rfl),
          fun hv => absurd hv hint⟩
        exact fun _ => ⟨by simp [invalidateTile], fun tid' hc => absurd hc (by simp [h])⟩
      | WaitForUpload b =>
        rw [tileUpdate_true_inv_other _ _ _ _ _ hint (by simp [h])]
        refine ⟨⟨rfl, rfl⟩, Or.inr rfl, fun _ => ⟨rfl, Or.inl rfl⟩, ?_, Or.inr (Or.inl rfl),
          fun hv => absurd hv hint⟩
        exact fun _ => ⟨by simp [invalidateTile], fun tid' hc => absurd hc (by simp [h])⟩
      | Ready =>
        rw [tileUpdate_true_inv_other _ _ _ _ _ hint (by simp [h])]
        refine ⟨⟨rfl, rfl⟩, Or.inr rfl, fun _ => ⟨rfl, Or.inl rfl⟩, ?_, Or.inr (Or.inl rfl),
          fun hv => absurd hv hint⟩
        exact fun _ => ⟨by simp [invalidateTile], fun tid' hc => absurd hc (by simp [h])⟩


theorem tileUpdate_aborts (texSize : Vec2n) (frame fr : RectQ) (sc : Bool)
    (tile : Tile) (tasks : List TaskRec) (tid : ℕ)
    (hst : tile.state = .Computing tid) (htid : tid < tasks.length)
    (hcond : sc = true ∨ ¬ RectQ.intersects frame (tileFRect texSize fr tile.tex_rect)) :
    (((tileUpdate texSize frame fr sc tile tasks).2)[tid]?).map TaskRec.abortRequested =
      some true := by
  rcases hcond with rfl | hint
  · by_cases hint : RectQ.intersects frame (tileFRect texSize fr tile.tex_rect)
    · rw [tileUpdate_true_vis_comp _ _ _ _ _ _ hint hst]
      rw [List.getElem?_append_left (by rw [abortTask_length]; exact htid)]
      exact abortTask_sets tasks tid htid
    · rw [tileUpdate_true_inv_comp _ _ _ _ _ _ hint hst]
      exact abortTask_sets tasks tid htid
  · cases sc with
    | false =>
      rw [tileUpdate_false_inv_comp _ _ _ _ _ _ hint hst]
      exact abortTask_sets tasks tid htid
    | true =>
      rw [tileUpdate_true_inv_comp _ _ _ _ _ _ hint hst]
      exact abortTask_sets tasks tid htid

theorem updGo_tiles_length (texSize : Vec2n) (frame fr : RectQ) (sc : Bool) :
    ∀ (ts : List Tile) (tasks : List TaskRec),
      (updGo texSize frame fr sc ts tasks).1.length = ts.length := by
  intro ts
  induction ts with
  | nil => intro tasks; rfl
  | cons t ts ih => intro tasks; simp [updGo, ih]

theorem updGo_tasks_length (texSize : Vec2n) (frame fr : RectQ) (sc : Bool) :
    ∀ (ts : List Tile) (tasks : List TaskRec),
      tasks.length ≤ (updGo texSize frame fr sc ts tasks).2.length := by
  intro ts
  induction ts with
  | nil => intro tasks; exact le_refl _
  | cons t ts ih =>
    intro tasks
    calc tasks.length ≤ (tileUpdate texSize frame fr sc t tasks).2.length :=
          tileUpdate_tasks_length _ _ _ _ _ _
    _ ≤ _ := by simpa [updGo] using ih (tileUpdate texSize frame fr sc t tasks).2

theorem updGo_tasks_core (texSize : Vec2n) (frame fr : RectQ) (sc : Bool) :
    ∀ (ts : List Tile) (tasks : List TaskRec) (k : ℕ), k < tasks.length →
      (((updGo texSize frame fr sc ts tasks).2)[k]?).map taskCore =
        (tasks[k]?).map taskCore := by
  intro ts
  induction ts with
  | nil => intro tasks k _; rfl
  | cons t ts ih =>
    intro tasks k hk
    have h1 := tileUpdate_tasks_core texSize frame fr sc t tasks k hk
    have h2 := ih (tileUpdate texSize frame fr sc t tasks).2 k
      (lt_of_lt_of_le hk (tileUpdate_tasks_length _ _ _ _ _ _))
    calc (((updGo texSize frame fr sc (t :: ts) tasks).2)[k]?).map taskCore
        = (((updGo texSize frame fr sc ts (tileUpdate texSize frame fr sc t tasks).2).2)[k]?).map taskCore := by
          simp [updGo]
    _ = (((tileUpdate texSize frame fr sc t tasks).2)[k]?).map taskCore := h2
    _ = (tasks[k]?).map taskCore := h1

theorem updGo_abort_mono (texSize : Vec2n) (frame fr : RectQ) (sc : Bool) :
    ∀ (ts : List Tile) (tasks : List TaskRec) (k : ℕ),
      (tasks[k]?).map TaskRec.abortRequested = some true →
      (((updGo texSize frame fr sc ts tasks).2)[k]?).map TaskRec.abortRequested =
        some true := by
  intro ts
  induction ts with
  | nil => intro tasks k h; exact h
  | cons t ts ih =>
    intro tasks k h
    have h1 := tileUpdate_abort_mono texSize frame fr sc t tasks k h
    simpa [updGo] using ih (tileUpdate texSize frame fr sc t tasks).2 k h1

theorem updGo_aborts (texSize : Vec2n) (frame fr : RectQ) (sc : Bool) :
    ∀ (ts : List Tile) (tasks : List TaskRec) (i : ℕ) (tile : Tile) (tid : ℕ),
      ts[i]? = some tile → tile.state = .Computing tid → tid < tasks.length →
      (sc = true ∨ ¬ RectQ.intersects frame (tileFRect texSize fr tile.tex_rect)) →
      (((updGo texSize frame fr sc ts tasks).2)[tid]?).map TaskRec.abortRequested =
        some true := by
  intro ts
  induction ts with
  | nil => intro tasks i tile tid h; simp at h
  | cons t ts ih =>
    intro tasks i tile tid h hst htid hcond
    cases i with
    | zero =>
      simp only [List.getElem?_cons_zero, Option.some.injEq] at h
      subst h
      have h1 := tileUpdate_aborts texSize frame fr sc t tasks tid hst htid hcond
      simpa [updGo] using
        updGo_abort_mono texSize frame fr sc ts (tileUpdate texSize frame fr sc t tasks).2 tid h1
    | succ m =>
      simp only [List.getElem?_cons_succ] at h
      have := ih (tileUpdate texSize frame fr sc t tasks).2 m tile tid h hst
        (lt_of_lt_of_le htid (tileUpdate_tasks_length _ _ _ _ _ _)) hcond
      simpa [updGo] using this

theorem updGo_pointwise (texSize : Vec2n) (frame fr : RectQ) (sc : Bool)
    (P : Tile → Tile → Prop) (n₀ : ℕ)
    (hP : ∀ tile tasks, n₀ ≤ tasks.length →
      P tile (tileUpdate texSize frame fr sc tile tasks).1) :
    ∀ (ts : List Tile) (tasks : List TaskRec), n₀ ≤ tasks.length →
      ∀ (i : ℕ) (tile : Tile), ts[i]? = some tile →
        ∃ tile', (updGo texSize frame fr sc ts tasks).1[i]? = some tile' ∧ P tile tile' := by
  intro ts
  induction ts with
  | nil => intro tasks hn i tile h; simp at h
  | cons t ts ih =>
    intro tasks hn i tile h
    cases i with
    | zero =>
      simp only [List.getElem?_cons_zero, Option.some.injEq] at h
      subst h
      refine ⟨(tileUpdate texSize frame fr sc t tasks).1, ?_, hP t tasks hn⟩
      simp [updGo]
    | succ m =>
      simp only [List.getElem?_cons_succ] at h
      obtain ⟨tile', h1, h2⟩ := ih (tileUpdate texSize frame fr sc t tasks).2
        (le_trans hn (tileUpdate_tasks_length _ _ _ _ _ _)) m tile h
      exact ⟨tile', by simpa [updGo] using h1, h2⟩

/-! ### `updateFn` lemmas and claims C2, C5, C6 -/

theorem updateFn_eq_true (frame : RectQ) (s : Sys) (h : scaleChangedP s frame) :
    updateFn frame s =
      { s with
        fractal_rect := newFrRect frame s,
        tiles := (updGo s.texSize frame (newFrRect frame s) true s.tiles s.tasks).1,
        tasks := (updGo s.texSize frame (newFrRect frame s) true s.tiles s.tasks).2 } := by
  unfold updateFn
  rw [decide_eq_true h]
  simp

theorem updateFn_eq_false (frame : RectQ) (s : Sys) (h : ¬ scaleChangedP s frame) :
    updateFn frame s =
      { s with
        fractal_rect := s.fractal_rect,
        tiles := (updGo s.texSize frame s.fractal_rect false s.tiles s.tasks).1,
        tasks := (updGo s.texSize frame s.fractal_rect false s.tiles s.tasks).2 } := by
  unfold updateFn
  rw [decide_eq_false h]
  simp

/-- C2: on a scale change, `update` recomputes the global rectangle centered
at the requested focus with size `a * frame.size.x` in both axes, and every
tile (visible or not) has its token incremented by one, any `Computing` task
abort-requested, and ends the pass either `Idle` or `Computing` a freshly
spawned task (its old state was discarded before dispatch); when the ratio
is within tolerance the global rectangle is unchanged. -/
theorem c2_scale_change_update (s : Sys) (frame : RectQ) :
    (scaleChangedP s frame →
      (updateFn frame s).fractal_rect =
        RectQ.center_size (RectQ.center frame)
          ⟨scaleVal s * frame.size.x, scaleVal s * frame.size.x⟩ ∧
      ∀ i, i < s.tiles.length →
        tokenAt (updateFn frame s) i = tokenAt s i + 1 ∧
        (∀ tid, stateAt s i = .Computing tid → tid < s.tasks.length →
          abortReqAt (updateFn frame s) tid = some true) ∧
        (stateAt (updateFn frame s) i = .Idle ∨
          ∃ tid, stateAt (updateFn frame s) i = .Computing tid ∧ s.tasks.length ≤ tid)) ∧
    (¬ scaleChangedP s frame → (updateFn frame s).fractal_rect = s.fractal_rect) := by
  constructor
  · intro h
    rw [updateFn_eq_true frame s h]
    refine ⟨rfl, ?_⟩
    intro i hi
    have hget : s.tiles[i]? = some s.tiles[i] := List.getElem?_eq_getElem hi
    have hpoint := updGo_pointwise s.texSize frame (newFrRect frame s) true
      (fun tile out => out.cancel_token = tile.cancel_token + 1 ∧
        (out.state = .Idle ∨ ∃ m, out.state = .Computing m ∧ s.tasks.length ≤ m))
      s.tasks.length
      (fun tile tasks hn => by
        have hf := tileUpdate_tile_facts s.texSize frame (newFrRect frame s) true tile tasks
        obtain ⟨-, -, hsc, -, -, -⟩ := hf
        obtain ⟨htok, hstate⟩ := hsc rfl
        refine ⟨htok, ?_⟩
        rcases hstate with h1 | h1
        · exact Or.inl h1
        · exact Or.inr ⟨tasks.length, h1, hn⟩)
      s.tiles s.tasks (le_refl _) i s.tiles[i] hget
    obtain ⟨tile', hget', htok, hstate⟩ := hpoint
    refine ⟨?_, ?_, ?_⟩
    · simp [tokenAt, hget', hget, htok]
    · intro tid hst htid
      have := updGo_aborts s.texSize frame (newFrRect frame s) true s.tiles s.tasks i
        s.tiles[i] tid hget ?_ htid (Or.inl rfl)
      · simpa [abortReqAt] using this
      · simpa [stateAt, hget] using hst
    · rcases hstate with h1 | ⟨m, h1, h2⟩
      · exact Or.inl (by simp [stateAt, hget', h1])
      · exact Or.inr ⟨m, by simp [stateAt, hget', h1], h2⟩
  · intro h
    rw [updateFn_eq_false frame s h]

/-- Closed witness for `c2_scale_change_update` at the concrete scenario
(first update after construction, which always changes the scale). -/
theorem c2_witness :
    (updateFn frameA cfgA).fractal_rect =
      RectQ.center_size (RectQ.center frameA)
        ⟨scaleVal cfgA * frameA.size.x, scaleVal cfgA * frameA.size.x⟩ ∧
    tokenAt (updateFn frameA cfgA) 0 = tokenAt cfgA 0 + 1 := by
  have h := (c2_scale_change_update cfgA frameA).1 (by decide)
  exact ⟨h.1, (h.2 0 (by decide)).1⟩

/-- C6: after an `update` pass, a tile whose current fractal rectangle does
not intersect the requested frame is never `Computing`; if it was
`Computing`, the pass cancelled it — token bumped, state `Idle`, task handle
abort-requested — and dispatched nothing for it. -/
theorem c6_invisible_not_computing (s : Sys) (frame : RectQ) (i : ℕ) (tile : Tile)
    (hget : s.tiles[i]? = some tile)
    (hinv : ¬ RectQ.intersects frame
      (tileFRect s.texSize (updateFn frame s).fractal_rect tile.tex_rect)) :
    (∀ tid, stateAt (updateFn frame s) i ≠ .Computing tid) ∧
    (∀ tid, tile.state = .Computing tid →
      stateAt (updateFn frame s) i = .Idle ∧
      tokenAt (updateFn frame s) i = tile.cancel_token + 1 ∧
      (tid < s.tasks.length → abortReqAt (updateFn frame s) tid = some true)) := by
  by_cases h : scaleChangedP s frame
  · rw [updateFn_eq_true frame s h] at hinv ⊢
    simp only at hinv
    have hpoint := updGo_pointwise s.texSize frame (newFrRect frame s) true
      (fun tile out =>
        ¬ RectQ.intersects frame (tileFRect s.texSize (newFrRect frame s) tile.tex_rect) →
          (∀ tid, out.state ≠ .Computing tid) ∧
          (∀ tid, tile.state = .Computing tid →
            out.state = .Idle ∧ out.cancel_token = tile.cancel_token + 1)) 0
      (fun tile tasks _ => by
        intro hv
        have hf := tileUpdate_tile_facts s.texSize frame (newFrRect frame s) true tile tasks
        exact hf.2.2.2.1 hv)
      s.tiles s.tasks (Nat.zero_le _) i tile hget
    obtain ⟨tile', hget', hP⟩ := hpoint
    obtain ⟨hnc, hwc⟩ := hP hinv
    refine ⟨fun tid hc => hnc tid (by simpa [stateAt, hget'] using hc), ?_⟩
    intro tid hst
    obtain ⟨h1, h2⟩ := hwc tid hst
    refine ⟨by simp [stateAt, hget', h1], by simp [tokenAt, hget', h2], ?_⟩
    intro htid
    have := updGo_aborts s.texSize frame (newFrRect frame s) true s.tiles s.tasks i
      tile tid hget hst htid (Or.inl rfl)
    simpa [abortReqAt] using this
  · rw [updateFn_eq_false frame s h] at hinv ⊢
    simp only at hinv
    have hpoint := updGo_pointwise s.texSize frame s.fractal_rect false
      (fun tile out =>
        ¬ RectQ.intersects frame (tileFRect s.texSize s.fractal_rect tile.tex_rect) →
          (∀ tid, out.state ≠ .Computing tid) ∧
          (∀ tid, tile.state = .Computing tid →
            out.state = .Idle ∧ out.cancel_token = tile.cancel_token + 1)) 0
      (fun tile tasks _ => by
        intro hv
        have hf := tileUpdate_tile_facts s.texSize frame s.fractal_rect false tile tasks
        exact hf.2.2.2.1 hv)
      s.tiles s.tasks (Nat.zero_le _) i tile hget
    obtain ⟨tile', hget', hP⟩ := hpoint
    obtain ⟨hnc, hwc⟩ := hP hinv
    refine ⟨fun tid hc => hnc tid (by simpa [stateAt, hget'] using hc), ?_⟩
    intro tid hst
    obtain ⟨h1, h2⟩ := hwc tid hst
    refine ⟨by simp [stateAt, hget', h1], by simp [tokenAt, hget', h2], ?_⟩
    intro htid
    have := updGo_aborts s.texSize frame s.fractal_rect false s.tiles s.tasks i
      tile tid hget hst htid (Or.inr hinv)
    simpa [abortReqAt] using this

/-- Closed witness for `c6_invisible_not_computing`: after the first update,
corner tile 0 is invisible and not `Computing`. -/
theorem c6_witness :
    stateAt (updateFn frameA cfgA) 0 ≠ .Computing 0 ∧ stateAt cfgA 0 = .Idle := by
  refine ⟨?_, by decide⟩
  have h := c6_invisible_not_computing cfgA frameA 0
    ⟨0, ⟨⟨0, 0⟩, ⟨1, 1⟩⟩, .Idle, 0⟩ (by decide) (by decide)
  exact h.1 0

theorem updGo_fixpoint (texSize : Vec2n) (frame fr : RectQ) :
    ∀ (ts : List Tile) (tasks : List TaskRec),
      (∀ t ∈ ts,
        (RectQ.intersects frame (tileFRect texSize fr t.tex_rect) → t.state ≠ .Idle) ∧
        (¬ RectQ.intersects frame (tileFRect texSize fr t.tex_rect) →
          ∀ tid, t.state ≠ .Computing tid)) →
      updGo texSize frame fr false ts tasks = (ts, tasks) := by
  intro ts
  induction ts with
  | nil => intro tasks _; rfl
  | cons t ts ih =>
    intro tasks hall
    have ht := hall t (List.mem_cons_self _ _)
    have heq : tileUpdate texSize frame fr false t tasks = (t, tasks) := by
      by_cases hint : RectQ.intersects frame (tileFRect texSize fr t.tex_rect)
      · exact tileUpdate_false_vis_other texSize frame fr t tasks hint (ht.1 hint)
      · exact tileUpdate_false_inv_other texSize frame fr t tasks hint (ht.2 hint)
    have hrest := ih tasks (fun t' ht' => hall t' (List.mem_cons_of_mem _ ht'))
    simp [updGo, heq, hrest]

theorem updateFn_post_tiles (frame : RectQ) (s : Sys) :
    ∀ (i : ℕ) (tile' : Tile), (updateFn frame s).tiles[i]? = some tile' →
      (RectQ.intersects frame
        (tileFRect s.texSize (updateFn frame s).fractal_rect tile'.tex_rect) →
        tile'.state ≠ .Idle) ∧
      (¬ RectQ.intersects frame
        (tileFRect s.texSize (updateFn frame s).fractal_rect tile'.tex_rect) →
        ∀ tid, tile'.state ≠ .Computing tid) := by
  intro i tile' hget'
  have hi : i < s.tiles.length := by
    have h1 : i < (updateFn frame s).tiles.length := (List.getElem?_eq_some_iff.mp hget').1
    by_cases h : scaleChangedP s frame
    · rw [updateFn_eq_true frame s h] at h1
      simpa [updGo_tiles_length] using h1
    · rw [updateFn_eq_false frame s h] at h1
      simpa [updGo_tiles_length] using h1
  have hget : s.tiles[i]? = some s.tiles[i] := List.getElem?_eq_getElem hi
  by_cases h : scaleChangedP s frame
  · rw [updateFn_eq_true frame s h] at hget' ⊢
    simp only at hget' ⊢
    obtain ⟨tile'', hget'', hP⟩ := updGo_pointwise s.texSize frame (newFrRect frame s) true
      (fun tile out =>
        (RectQ.intersects frame (tileFRect s.texSize (newFrRect frame s) out.tex_rect) →
          out.state ≠ .Idle) ∧
        (¬ RectQ.intersects frame (tileFRect s.texSize (newFrRect frame s) out.tex_rect) →
          ∀ tid, out.state ≠ .Computing tid)) 0
      (fun tile tasks _ => by
        have hf := tileUpdate_tile_facts s.texSize frame (newFrRect frame s) true tile tasks
        dsimp only
        rw [hf.1.2]
        exact ⟨fun hv => hf.2.2.2.2.2 hv, fun hv => (hf.2.2.2.1 hv).1⟩)
      s.tiles s.tasks (Nat.zero_le _) i s.tiles[i] hget
    rw [hget'] at hget''
    obtain rfl : tile'' = tile' := by simpa using hget''.symm
    exact hP
  · rw [updateFn_eq_false frame s h] at hget' ⊢
    simp only at hget' ⊢
    obtain ⟨tile'', hget'', hP⟩ := updGo_pointwise s.texSize frame s.fractal_rect false
      (fun tile out =>
        (RectQ.intersects frame (tileFRect s.texSize s.fractal_rect out.tex_rect) →
          out.state ≠ .Idle) ∧
        (¬ RectQ.intersects frame (tileFRect s.texSize s.fractal_rect out.tex_rect) →
          ∀ tid, out.state ≠ .Computing tid)) 0
      (fun tile tasks _ => by
        have hf := tileUpdate_tile_facts s.texSize frame s.fractal_rect false tile tasks
        dsimp only
        rw [hf.1.2]
        exact ⟨fun hv => hf.2.2.2.2.2 hv, fun hv => (hf.2.2.2.1 hv).1⟩)
      s.tiles s.tasks (Nat.zero_le _) i s.tiles[i] hget
    rw [hget'] at hget''
    obtain rfl : tile'' = tile' := by simpa using hget''.symm
    exact hP

theorem scaleChanged_stable (frame : RectQ) (s : Sys) (hf : frame.size.x ≠ 0) :
    ¬ scaleChangedP (updateFn frame s) frame := by
  have hsv : scaleVal (updateFn frame s) = scaleVal s := rfl
  by_cases h : scaleChangedP s frame
  · intro hcon
    unfold scaleChangedP at hcon
    rw [hsv, updateFn_eq_true frame s h] at hcon
    simp only [newFrRect, RectQ.center_size] at hcon
    rw [mul_div_assoc, div_self hf, mul_one] at hcon
    simp only [sub_self, abs_zero] at hcon
    exact absurd hcon (by norm_num [EPS])
  · intro hcon
    unfold scaleChangedP at hcon
    rw [hsv, updateFn_eq_false frame s h] at hcon
    exact h hcon

/-- C5, amended: under exact arithmetic — equivalently, whenever the `f64`
recomputation of the ratio lands within the tolerance — `update` is
idempotent: a second call with the same requested frame and no intervening
task completions leaves the whole system unchanged, the scale-change branch
does not fire again, no tile is invalidated or bumped, and (because every
visible tile is already non-`Idle` and every invisible tile non-`Computing`)
no new computation is dispatched. The floating-point source can violate the
proviso; see the counterexample below. -/
theorem c5_update_idempotent (s : Sys) (frame : RectQ) (hf : frame.size.x ≠ 0) :
    updateFn frame (updateFn frame s) = updateFn frame s := by
  have hsc₂ := scaleChanged_stable frame s hf
  rw [updateFn_eq_false frame (updateFn frame s) hsc₂]
  have hcond : ∀ t ∈ (updateFn frame s).tiles,
      (RectQ.intersects frame
        (tileFRect (updateFn frame s).texSize (updateFn frame s).fractal_rect t.tex_rect) →
        t.state ≠ .Idle) ∧
      (¬ RectQ.intersects frame
        (tileFRect (updateFn frame s).texSize (updateFn frame s).fractal_rect t.tex_rect) →
        ∀ tid, t.state ≠ .Computing tid) := by
    intro t ht
    obtain ⟨i, hi, hget⟩ := List.getElem_of_mem ht
    exact updateFn_post_tiles frame s i t (by rw [List.getElem?_eq_getElem hi, hget])
  rw [updGo_fixpoint (updateFn frame s).texSize frame (updateFn frame s).fractal_rect
    (updateFn frame s).tiles (updateFn frame s).tasks hcond]

/-- Closed witness for `c5_update_idempotent` at the concrete scenario. -/
theorem c5_witness :
    updateFn frameA (updateFn frameA cfgA) = updateFn frameA cfgA :=
  c5_update_idempotent cfgA frameA (by decide)

set_option maxRecDepth 20000 in
/-- C5, counterexample: the source compares the scale ratio in `f64`. With
texture width 2048, window width 1000 and frame width `8059/1024` (an exact
double), the first update fires the scale branch (the stored rect is zeroed)
and stores `fractal_rect.size.x = fl(a * frameW)` with `a = fl(2048/1000)`;
on the second update with the same frame the recomputed ratio
`fl(fl(a * frameW) / frameW)` differs from `a` by more than `f64::EPSILON`,
so the scale-change branch fires again, re-invalidating every tile and
re-dispatching the visible ones — refuting the claim that the branch does
not fire on the second of two identical consecutive updates. -/
theorem c5_counterexample :
    fl frameW64 = frameW64 ∧
    scaleChangedF 2048 1000 0 frameW64 = true ∧
    scaleChangedF 2048 1000 (fl (fl ((2048 : ℚ) / 1000) * frameW64)) frameW64 = true := by
  refine ⟨by decide, by decide, by decide⟩

/-! ### Trace theorems: C1 and C3 counterexamples, C9 -/

set_option maxRecDepth 400000 in
/-- C1, counterexample: the write-back does not re-check staleness.  In the
concrete scenario, tile 5's computation (task 0, generation 1) passes its
only poll, then a scale-changing `update` bumps the tile's token to 2,
aborts the handle (too late — the body already ran past its last poll) and
re-dispatches; the stale task then commits: the tile is observed in
`WaitForUpload` holding the generation-1 buffer while the live token is 2. -/
theorem c1_counterexample :
    Steps cfgA c1State ∧
    stateAt c1State 5 = .WaitForUpload [1] ∧
    committedAt c1State 0 = some true ∧
    lastCommitAt c1State 5 = some 1 ∧
    tokenAt c1State 5 = 2 ∧ (1 : ℕ) ≠ 2 := by
  refine ⟨?_, by decide, by decide, by decide, by decide, by decide⟩
  have h1 : Step cfgA (updateFn frameA cfgA) := Step.update _ _
  have h2 : Step (updateFn frameA cfgA) (startFn (updateFn frameA cfgA) 0) :=
    Step.start _ 0 (by decide)
  have h3 : Step (startFn (updateFn frameA cfgA) 0)
      (advanceFn (startFn (updateFn frameA cfgA) 0) 0) :=
    Step.advance _ 0 1 0 [] (by decide) (by decide) (by decide)
  have h4 : Step (advanceFn (startFn (updateFn frameA cfgA) 0) 0)
      (updateFn frameC (advanceFn (startFn (updateFn frameA cfgA) 0) 0)) :=
    Step.update _ _
  have h5 : Step (updateFn frameC (advanceFn (startFn (updateFn frameA cfgA) 0) 0))
      (commitFn (updateFn frameC (advanceFn (startFn (updateFn frameA cfgA) 0) 0)) 0 1 [1]) :=
    Step.commit _ 0 1 [1] (by decide)
  exact Relation.ReflTransGen.tail
    (Relation.ReflTransGen.tail
      (Relation.ReflTransGen.tail
        (Relation.ReflTransGen.tail
          (Relation.ReflTransGen.tail Relation.ReflTransGen.refl h1) h2) h3) h4) h5

set_option maxRecDepth 400000 in
/-- C3, counterexample: scale-change invalidation forces
`WaitForUpload → Idle`.  In the concrete scenario tile 0 holds a committed
buffer (`WaitForUpload`), and a scale-changing `update` moves it straight to
`Idle`, a transition the claim says never occurs. -/
theorem c3_counterexample_waitforupload_to_idle :
    Steps cfgA c3State ∧
    stateAt c3State 0 = .WaitForUpload [1] ∧
    scaleChangedP c3State frameC ∧
    Step c3State (updateFn frameC c3State) ∧
    stateAt (updateFn frameC c3State) 0 = .Idle := by
  refine ⟨?_, by decide, by decide, Step.update _ frameC, by decide⟩
  have h1 : Step cfgA (updateFn frameA cfgA) := Step.update _ _
  have h2 : Step (updateFn frameA cfgA) (updateFn frameB (updateFn frameA cfgA)) :=
    Step.update _ _
  have h3 : Step (updateFn frameB (updateFn frameA cfgA))
      (startFn (updateFn frameB (updateFn frameA cfgA)) 4) :=
    Step.start _ 4 (by decide)
  have h4 : Step (startFn (updateFn frameB (updateFn frameA cfgA)) 4)
      (advanceFn (startFn (updateFn frameB (updateFn frameA cfgA)) 4) 4) :=
    Step.advance _ 4 1 0 [] (by decide) (by decide) (by decide)
  have h5 : Step (advanceFn (startFn (updateFn frameB (updateFn frameA cfgA)) 4) 4)
      (commitFn (advanceFn (startFn (updateFn frameB (updateFn frameA cfgA)) 4) 4) 4 1 [1]) :=
    Step.commit _ 4 1 [1] (by decide)
  exact Relation.ReflTransGen.tail
    (Relation.ReflTransGen.tail
      (Relation.ReflTransGen.tail
        (Relation.ReflTransGen.tail
          (Relation.ReflTransGen.tail Relation.ReflTransGen.refl h1) h2) h3) h4) h5

set_option maxRecDepth 400000 in
/-- C9: the generation a computation compares its polls against is the live
token read by the task body itself when it starts (`cancel_token.load` at
the top of `mandelbrot`), not a value captured by `update` at dispatch.
Consequently a token increment between the spawn and the task's first read
does not cancel that computation: in the concrete trace, task 0 is spawned
at token 1, the token is bumped to 2 (with an executor abort request that
arrives too late) while the task is still unstarted, the task then adopts
generation 2, passes its polls and commits. -/
theorem c9_generation_read_at_start :
    (∀ (s : Sys) (tid : ℕ) (r : TaskRec), s.tasks[tid]? = some r →
      phaseAt (startFn s tid) tid = some (.running (tokenAt s r.tileIdx) 0 [])) ∧
    (Steps cfgA
      (commitFn (advanceFn (startFn (updateFn frameC (updateFn frameA cfgA)) 0) 0) 0 2 [1]) ∧
     phaseAt (updateFn frameA cfgA) 0 = some .spawned ∧
     tokenAt (updateFn frameA cfgA) 5 = 1 ∧
     phaseAt (updateFn frameC (updateFn frameA cfgA)) 0 = some .spawned ∧
     abortReqAt (updateFn frameC (updateFn frameA cfgA)) 0 = some true ∧
     tokenAt (updateFn frameC (updateFn frameA cfgA)) 5 = 2 ∧
     phaseAt (startFn (updateFn frameC (updateFn frameA cfgA)) 0) 0 =
       some (.running 2 0 []) ∧
     stateAt (commitFn (advanceFn (startFn (updateFn frameC (updateFn frameA cfgA)) 0) 0) 0 2 [1]) 5 =
       .WaitForUpload [1] ∧
     lastCommitAt (commitFn (advanceFn (startFn (updateFn frameC (updateFn frameA cfgA)) 0) 0) 0 2 [1]) 5 =
       some 2 ∧
     committedAt (commitFn (advanceFn (startFn (updateFn frameC (updateFn frameA cfgA)) 0) 0) 0 2 [1]) 0 =
       some true) := by
  constructor
  · intro s tid r hget
    unfold phaseAt startFn
    simp only
    rw [getElem?_mapNth_eq, hget]
    rfl
  · refine ⟨?_, by decide, by decide, by decide, by decide, by decide, by decide,
      by decide, by decide, by decide⟩
    have h1 : Step cfgA (updateFn frameA cfgA) := Step.update _ _
    have h2 : Step (updateFn frameA cfgA) (updateFn frameC (updateFn frameA cfgA)) :=
      Step.update _ _
    have h3 : Step (updateFn frameC (updateFn frameA cfgA))
        (startFn (updateFn frameC (updateFn frameA cfgA)) 0) :=
      Step.start _ 0 (by decide)
    have h4 : Step (startFn (updateFn frameC (updateFn frameA cfgA)) 0)
        (advanceFn (startFn (updateFn frameC (updateFn frameA cfgA)) 0) 0) :=
      Step.advance _ 0 2 0 [] (by decide) (by decide) (by decide)
    have h5 : Step (advanceFn (startFn (updateFn frameC (updateFn frameA cfgA)) 0) 0)
        (commitFn (advanceFn (startFn (updateFn frameC (updateFn frameA cfgA)) 0) 0) 0 2 [1]) :=
      Step.commit _ 0 2 [1] (by decide)
    exact Relation.ReflTransGen.tail
      (Relation.ReflTransGen.tail
        (Relation.ReflTransGen.tail
          (Relation.ReflTransGen.tail
            (Relation.ReflTransGen.tail Relation.ReflTransGen.refl h1) h2) h3) h4) h5

set_option maxRecDepth 400000 in
/-- Closed witness for `c9_generation_read_at_start` at the concrete state
where task 0 is spawned and its tile's token has already been bumped to 2. -/
theorem c9_witness :
    phaseAt (startFn (updateFn frameC (updateFn frameA cfgA)) 0) 0 =
      some (.running (tokenAt (updateFn frameC (updateFn frameA cfgA)) 5) 0 []) := by
  have h := c9_generation_read_at_start.1 (updateFn frameC (updateFn frameA cfgA)) 0
    ⟨5, ⟨4, 4⟩, ⟨⟨1, 1⟩, ⟨1, 1⟩⟩, ⟨0, 0⟩, 1 / 64, .spawned, true, false⟩ (by decide)
  exact h

/-! ### Step-level lemmas -/

theorem updateFn_tiles_length (frame : RectQ) (s : Sys) :
    (updateFn frame s).tiles.length = s.tiles.length := by
  by_cases h : scaleChangedP s frame
  · rw [updateFn_eq_true frame s h]; exact updGo_tiles_length _ _ _ _ _ _
  · rw [updateFn_eq_false frame s h]; exact updGo_tiles_length _ _ _ _ _ _

theorem updateFn_token_mono (frame : RectQ) (s : Sys) (j : ℕ) :
    tokenAt s j ≤ tokenAt (updateFn frame s) j := by
  by_cases hj : j < s.tiles.length
  · have hget : s.tiles[j]? = some s.tiles[j] := List.getElem?_eq_getElem hj
    by_cases h : scaleChangedP s frame
    · rw [updateFn_eq_true frame s h]
      obtain ⟨tile', h1, h2⟩ := updGo_pointwise s.texSize frame (newFrRect frame s) true
        (fun tile out => tile.cancel_token ≤ out.cancel_token) 0
        (fun tile tasks _ => by
          have hf := tileUpdate_tile_facts s.texSize frame (newFrRect frame s) true tile tasks
          dsimp only
          rcases hf.2.1 with h | h <;> omega)
        s.tiles s.tasks (Nat.zero_le _) j s.tiles[j] hget
      simp only [tokenAt, hget]
      simp [h1, h2]
    · rw [updateFn_eq_false frame s h]
      obtain ⟨tile', h1, h2⟩ := updGo_pointwise s.texSize frame s.fractal_rect false
        (fun tile out => tile.cancel_token ≤ out.cancel_token) 0
        (fun tile tasks _ => by
          have hf := tileUpdate_tile_facts s.texSize frame s.fractal_rect false tile tasks
          dsimp only
          rcases hf.2.1 with h | h <;> omega)
        s.tiles s.tasks (Nat.zero_le _) j s.tiles[j] hget
      simp only [tokenAt, hget]
      simp [h1, h2]
  · have h1 : (updateFn frame s).tiles[j]? = none := by
      apply List.getElem?_eq_none
      rw [updateFn_tiles_length]
      omega
    have h2 : s.tiles[j]? = none := List.getElem?_eq_none (by omega)
    simp [tokenAt, h1, h2]

theorem updateFn_tasks_core (frame : RectQ) (s : Sys) (k : ℕ) (hk : k < s.tasks.length) :
    ((updateFn frame s).tasks[k]?).map taskCore = (s.tasks[k]?).map taskCore := by
  by_cases h : scaleChangedP s frame
  · rw [updateFn_eq_true frame s h]; exact updGo_tasks_core _ _ _ _ _ _ _ hk
  · rw [updateFn_eq_false frame s h]; exact updGo_tasks_core _ _ _ _ _ _ _ hk

theorem tokenAt_renderFn (s : Sys) (j : ℕ) : tokenAt (renderFn s) j = tokenAt s j := by
  unfold tokenAt renderFn
  simp only [List.getElem?_map]
  cases s.tiles[j]? with
  | none => rfl
  | some t => cases ht : t.state <;> simp [ht]

theorem token_of_mapNth_state (ts : List Tile) (g : Tile → Tile)
    (hg : ∀ t, (g t).cancel_token = t.cancel_token) (j i : ℕ) :
    ((mapNth g ts j)[i]?).map Tile.cancel_token = (ts[i]?).map Tile.cancel_token := by
  rcases eq_or_ne j i with rfl | hne
  · rw [getElem?_mapNth_eq]
    cases ts[j]? with
    | none => rfl
    | some t => simp [hg]
  · rw [getElem?_mapNth_ne _ _ _ _ hne]

theorem tokenAt_setTileState (s : Sys) (j : ℕ) (st : TileState) (i : ℕ) :
    tokenAt (setTileState s j st) i = tokenAt s i := by
  unfold tokenAt setTileState
  simp only
  rw [token_of_mapNth_state s.tiles (fun t => { t with state := st }) (fun t => rfl) j i]

theorem tokenAt_commitFn (s : Sys) (tid gen : ℕ) (acc : List ℕ) (i : ℕ) :
    tokenAt (commitFn s tid gen acc) i = tokenAt s i := by
  unfold tokenAt commitFn
  simp only
  rw [token_of_mapNth_state s.tiles (fun t => { t with state := .WaitForUpload acc })
    (fun t => rfl) (taskTileAt s tid) i]

theorem step_token_mono (a b : Sys) (hstep : Step a b) (j : ℕ) :
    tokenAt a j ≤ tokenAt b j := by
  cases hstep with
  | update frame => exact updateFn_token_mono frame a j
  | render => exact le_of_eq (tokenAt_renderFn a j).symm
  | start tid h => exact le_refl _
  | kill tid h ha => exact le_refl _
  | advance tid gen pos acc h hlt hp => exact le_refl _
  | cancelSelf tid gen pos acc h hlt hpoll hne =>
    exact le_of_eq (tokenAt_setTileState _ _ _ _).symm
  | commit tid gen acc h => exact le_of_eq (tokenAt_commitFn a tid gen acc j).symm

/-! ### C3 amended: per-step transition characterization -/

/-- C3, amended: the per-step tile transitions of the system.  In addition
to the claim's five transitions, (a) an `update` pass can force any state to
`Idle` (in particular `WaitForUpload → Idle` under scale-change
invalidation) and can chain that forced `Idle` with a fresh dispatch, and
(b) a task's unguarded write-back can put `WaitForUpload` over any state
(success) or `Idle` over any state (cancellation path).  Every `Computing`
state that appears in a step is a freshly spawned handle, and `Ready`
arises only from `WaitForUpload` in the render pass. -/
theorem c3_amended_transitions (s s' : Sys) (hstep : Step s s') (i : ℕ) :
    stateAt s' i = stateAt s i ∨
    stateAt s' i = .Idle ∨
    (∃ b, stateAt s i = .WaitForUpload b ∧ stateAt s' i = .Ready) ∨
    (∃ b, stateAt s' i = .WaitForUpload b) ∨
    (∃ tid, stateAt s' i = .Computing tid ∧ s.tasks.length ≤ tid) := by
  cases hstep with
  | update frame =>
    by_cases hi : i < s.tiles.length
    · have hget : s.tiles[i]? = some s.tiles[i] := List.getElem?_eq_getElem hi
      by_cases h : scaleChangedP s frame
      · rw [updateFn_eq_true frame s h]
        obtain ⟨tile', h1, h2⟩ := updGo_pointwise s.texSize frame (newFrRect frame s) true
          (fun tile out => out.state = tile.state ∨ out.state = .Idle ∨
            ∃ m, out.state = .Computing m ∧ s.tasks.length ≤ m) s.tasks.length
          (fun tile tasks hn => by
            have hf := tileUpdate_tile_facts s.texSize frame (newFrRect frame s) true tile tasks
            dsimp only
            rcases hf.2.2.2.2.1 with h | h | ⟨h, -⟩
            · exact Or.inl h
            · exact Or.inr (Or.inl h)
            · exact Or.inr (Or.inr ⟨tasks.length, h, hn⟩))
          s.tiles s.tasks (le_refl _) i s.tiles[i] hget
        simp only [stateAt, hget, h1]
        rcases h2 with h2 | h2 | ⟨m, h2, hm⟩
        · exact Or.inl (by simp [h2])
        · exact Or.inr (Or.inl (by simp [h2]))
        · exact Or.inr (Or.inr (Or.inr (Or.inr ⟨m, by simp [h2], hm⟩)))
      · rw [updateFn_eq_false frame s h]
        obtain ⟨tile', h1, h2⟩ := updGo_pointwise s.texSize frame s.fractal_rect false
          (fun tile out => out.state = tile.state ∨ out.state = .Idle ∨
            ∃ m, out.state = .Computing m ∧ s.tasks.length ≤ m) s.tasks.length
          (fun tile tasks hn => by
            have hf := tileUpdate_tile_facts s.texSize frame s.fractal_rect false tile tasks
            dsimp only
            rcases hf.2.2.2.2.1 with h | h | ⟨h, -⟩
            · exact Or.inl h
            · exact Or.inr (Or.inl h)
            · exact Or.inr (Or.inr ⟨tasks.length, h, hn⟩))
          s.tiles s.tasks (le_refl _) i s.tiles[i] hget
        simp only [stateAt, hget, h1]
        rcases h2 with h2 | h2 | ⟨m, h2, hm⟩
        · exact Or.inl (by simp [h2])
        · exact Or.inr (Or.inl (by simp [h2]))
        · exact Or.inr (Or.inr (Or.inr (Or.inr ⟨m, by simp [h2], hm⟩)))
    · have h1 : (updateFn frame s).tiles[i]? = none := by
        apply List.getElem?_eq_none
        rw [updateFn_tiles_length]
        omega
      have h2 : s.tiles[i]? = none := List.getElem?_eq_none (by omega)
      exact Or.inl (by simp [stateAt, h1, h2])
  | render =>
    unfold renderFn stateAt
    simp only [List.getElem?_map]
    cases s.tiles[i]? with
    | none => exact Or.inl rfl
    | some t =>
      cases ht : t.state with
      | WaitForUpload b =>
        exact Or.inr (Or.inr (Or.inl ⟨b, by simp [ht], by simp [ht]⟩))
      | Idle => exact Or.inl (by simp [ht])
      | Computing tid => exact Or.inl (by simp [ht])
      | Ready => exact Or.inl (by simp [ht])
  | start tid h => exact Or.inl rfl
  | kill tid h ha => exact Or.inl rfl
  | advance tid gen pos acc h hlt hp => exact Or.inl rfl
  | cancelSelf tid gen pos acc h hlt hpoll hne =>
    unfold cancelFn setTileState stateAt
    simp only
    rcases eq_or_ne (taskTileAt s tid) i with heq | hne2
    · rw [heq, getElem?_mapNth_eq]
      cases s.tiles[i]? with
      | none => exact Or.inr (Or.inl rfl)
      | some t => exact Or.inr (Or.inl rfl)
    · rw [getElem?_mapNth_ne _ _ _ _ hne2]
      exact Or.inl rfl
  | commit tid gen acc h =>
    unfold commitFn stateAt
    simp only
    rcases eq_or_ne (taskTileAt s tid) i with heq | hne2
    · rw [heq, getElem?_mapNth_eq]
      cases s.tiles[i]? with
      | none => exact Or.inr (Or.inl rfl)
      | some t => exact Or.inr (Or.inr (Or.inr (Or.inl ⟨acc, rfl⟩)))
    · rw [getElem?_mapNth_ne _ _ _ _ hne2]
      exact Or.inl rfl

set_option maxRecDepth 400000 in
/-- Closed witness for `c3_amended_transitions` at the first concrete
update step, tile 5. -/
theorem c3_witness :
    stateAt (updateFn frameA cfgA) 5 = .Computing 0 ∧ cfgA.tasks.length ≤ 0 := by
  have h := c3_amended_transitions cfgA (updateFn frameA cfgA) (Step.update cfgA frameA) 5
  have h0 : stateAt (updateFn frameA cfgA) 5 = .Computing 0 := by decide
  have hidle : stateAt cfgA 5 = .Idle := by decide
  rcases h with h | h | ⟨b, hb, -⟩ | ⟨b, hb⟩ | ⟨tid, hb, hle⟩
  · rw [h0, hidle] at h
    exact absurd h (by simp)
  · rw [h0] at h
    exact absurd h (by simp)
  · rw [hidle] at hb
    exact absurd hb (by simp)
  · rw [h0] at hb
    exact absurd hb (by simp)
  · rw [h0] at hb
    obtain rfl : 0 = tid := by simpa using hb
    exact ⟨h0, hle⟩

/-! ### C1 amended: a computation stale before its final poll never commits -/

theorem pollPos_lastPoll (r : RectN) (hw : 0 < r.size.x) :
    pollPos r.size.x (lastPoll r) := by
  unfold pollPos lastPoll
  have hv : 32 * ((r.size.x - 1) / 32) ≤ r.size.x - 1 := by
    rw [Nat.mul_comm]
    exact Nat.div_mul_le_self _ _
  rw [Nat.mul_comm (r.size.y - 1) r.size.x, Nat.mul_add_mod]
  rw [Nat.mod_eq_of_lt (show 32 * ((r.size.x - 1) / 32) < r.size.x by omega)]
  exact Nat.mul_mod_right 32 _

theorem lastPoll_lt_total (r : RectN) (hw : 0 < r.size.x) (hh : 0 < r.size.y) :
    lastPoll r < r.size.x * r.size.y := by
  unfold lastPoll
  have hv : 32 * ((r.size.x - 1) / 32) ≤ r.size.x - 1 := by
    rw [Nat.mul_comm]
    exact Nat.div_mul_le_self _ _
  have hstep : (r.size.y - 1) * r.size.x + r.size.x = r.size.y * r.size.x := by
    have h1 : r.size.y - 1 + 1 = r.size.y := by omega
    calc (r.size.y - 1) * r.size.x + r.size.x = (r.size.y - 1 + 1) * r.size.x := by
          rw [Nat.succ_mul]
    _ = r.size.y * r.size.x := by rw [h1]
  have hcomm : r.size.x * r.size.y = r.size.y * r.size.x := Nat.mul_comm _ _
  omega

theorem c1_inv_step (tid : ℕ) (R0 : RectN) (i0 gen : ℕ)
    (hw : 0 < R0.size.x) (hh : 0 < R0.size.y) :
    ∀ a b : Sys, Step a b →
      (∃ r', a.tasks[tid]? = some r' ∧ r'.committed = false ∧
        r'.texRect = R0 ∧ r'.tileIdx = i0 ∧
        (r'.phase = .done ∨
          ∃ pos' acc', r'.phase = .running gen pos' acc' ∧ pos' ≤ lastPoll R0) ∧
        gen < tokenAt a i0) →
      ∃ r', b.tasks[tid]? = some r' ∧ r'.committed = false ∧
        r'.texRect = R0 ∧ r'.tileIdx = i0 ∧
        (r'.phase = .done ∨
          ∃ pos' acc', r'.phase = .running gen pos' acc' ∧ pos' ≤ lastPoll R0) ∧
        gen < tokenAt b i0 := by
  intro a b hstep hinv
  obtain ⟨r', hget, hcom, htex, htile, hph, htok⟩ := hinv
  have htok' : gen < tokenAt b i0 := lt_of_lt_of_le htok (step_token_mono a b hstep i0)
  cases hstep with
  | update frame =>
    have hk : tid < a.tasks.length := (List.getElem?_eq_some_iff.mp hget).1
    have hcore := updateFn_tasks_core frame a tid hk
    rw [hget] at hcore
    cases hb : (updateFn frame a).tasks[tid]? with
    | none => rw [hb] at hcore; exact absurd hcore (by simp)
    | some r'' =>
      rw [hb] at hcore
      simp only [Option.map_some', Option.some.injEq, taskCore, Prod.mk.injEq] at hcore
      obtain ⟨he1, -, he3, -, -, he6, he7⟩ := hcore
      exact ⟨r'', rfl, by rw [he7]; exact hcom, by rw [he3]; exact htex,
        by rw [he1]; exact htile, by rw [he6]; exact hph, htok'⟩
  | render => exact ⟨r', hget, hcom, htex, htile, hph, htok'⟩
  | start tid' h =>
    rcases eq_or_ne tid' tid with rfl | hne
    · exfalso
      unfold phaseAt at h
      rw [hget] at h
      simp only [Option.map_some', Option.some.injEq] at h
      rcases hph with hd | ⟨p, acca, hr, -⟩
      · rw [hd] at h; exact absurd h (by simp)
      · rw [hr] at h; exact absurd h (by simp)
    · have hb : (startFn a tid').tasks[tid]? = a.tasks[tid]? := by
        simp only [startFn]
        exact getElem?_mapNth_ne _ _ _ _ hne
      exact ⟨r', by rw [hb]; exact hget, hcom, htex, htile, hph, htok'⟩
  | kill tid' h ha =>
    rcases eq_or_ne tid' tid with rfl | hne
    · exfalso
      unfold phaseAt at h
      rw [hget] at h
      simp only [Option.map_some', Option.some.injEq] at h
      rcases hph with hd | ⟨p, acca, hr, -⟩
      · rw [hd] at h; exact absurd h (by simp)
      · rw [hr] at h; exact absurd h (by simp)
    · have hb : (killFn a tid').tasks[tid]? = a.tasks[tid]? := by
        simp only [killFn]
        exact getElem?_mapNth_ne _ _ _ _ hne
      exact ⟨r', by rw [hb]; exact hget, hcom, htex, htile, hph, htok'⟩
  | advance tid' gen0 pos0 acc0 h hlt hp =>
    rcases eq_or_ne tid' tid with rfl | hne
    · unfold phaseAt at h
      rw [hget] at h
      simp only [Option.map_some', Option.some.injEq] at h
      rcases hph with hd | ⟨pos', acc', hr, hple⟩
      · rw [hd] at h; exact absurd h (by simp)
      · rw [hr] at h
        have hinj : gen = gen0 ∧ pos' = pos0 ∧ acc' = acc0 := by
          simpa using h
        obtain ⟨rfl, rfl, rfl⟩ := hinj
        have hwa : taskW a tid' = R0.size.x := by
          unfold taskW
          rw [hget]
          simp [htex]
        have htt : taskTileAt a tid' = i0 := by
          unfold taskTileAt
          rw [hget]
          simp [htile]
        by_cases hpoll : pollPos (taskW a tid') pos'
        · exfalso
          have hval := hp hpoll
          rw [htt] at hval
          omega
        · have hplast : pollPos R0.size.x (lastPoll R0) := pollPos_lastPoll R0 hw
          have hlt2 : pos' < lastPoll R0 := by
            rcases lt_or_eq_of_le hple with hcase | hcase
            · exact hcase
            · exfalso
              apply hpoll
              rw [hwa, hcase]
              exact hplast
          have hb : (advanceFn a tid').tasks[tid']? = some { r' with phase := TaskPhase.running gen (pos' + 1) (acc' ++ [escapeByte (pixelC r'.imgSize r'.texRect r'.fOff r'.fScale (pos' % r'.texRect.size.x) (pos' / r'.texRect.size.x))]) } := by
            simp only [advanceFn]
            rw [getElem?_mapNth_eq, hget]
            simp only [Option.map_some', Option.some.injEq]
            rw [hr]
          exact ⟨_, hb, hcom, htex, htile,
            Or.inr ⟨pos' + 1, _, rfl, by omega⟩, htok'⟩
    · have hb : (advanceFn a tid').tasks[tid]? = a.tasks[tid]? := by
        simp only [advanceFn]
        exact getElem?_mapNth_ne _ _ _ _ hne
      exact ⟨r', by rw [hb]; exact hget, hcom, htex, htile, hph, htok'⟩
  | cancelSelf tid' gen0 pos0 acc0 h hlt hpoll hne0 =>
    rcases eq_or_ne tid' tid with rfl | hne
    · have hb : (cancelFn a tid').tasks[tid']? = some { r' with phase := .done } := by
        simp only [cancelFn, setTileState]
        rw [getElem?_mapNth_eq, hget]
        rfl
      exact ⟨_, hb, hcom, htex, htile, Or.inl rfl, htok'⟩
    · have hb : (cancelFn a tid').tasks[tid]? = a.tasks[tid]? := by
        simp only [cancelFn, setTileState]
        exact getElem?_mapNth_ne _ _ _ _ hne
      exact ⟨r', by rw [hb]; exact hget, hcom, htex, htile, hph, htok'⟩
  | commit tid' gen0 acc0 h =>
    rcases eq_or_ne tid' tid with rfl | hne
    · exfalso
      unfold phaseAt at h
      rw [hget] at h
      simp only [Option.map_some', Option.some.injEq] at h
      rcases hph with hd | ⟨pos', acc', hr, hple⟩
      · rw [hd] at h; exact absurd h (by simp)
      · rw [hr] at h
        have htot : taskTotal a tid' = R0.size.x * R0.size.y := by
          unfold taskTotal
          rw [hget]
          simp [htex]
        have hinj : pos' = taskTotal a tid' := by
          have h2 := h
          simp only [TaskPhase.running.injEq] at h2
          exact h2.2.1
        have hfin := lastPoll_lt_total R0 hw hh
        omega
    · have hb : (commitFn a tid' gen0 acc0).tasks[tid]? = a.tasks[tid]? := by
        simp only [commitFn]
        exact getElem?_mapNth_ne _ _ _ _ hne
      exact ⟨r', by rw [hb]; exact hget, hcom, htex, htile, hph, htok'⟩

/-- C1, amended: staleness is checked only at the kernel's periodic poll
points (each pixel with `x ≡ 0 mod 32`), not immediately before write-back.
The guarantee that actually holds: if the tile's token is strictly above a
computation's generation while the computation has not yet passed its final
poll, that computation never commits its buffer, under any further
interleaving.  (If the increment lands after the final poll, the stale
result can still be committed — see the counterexample.) -/
theorem c1_amended_no_commit_before_last_poll (s s' : Sys) (hsteps : Steps s s')
    (tid : ℕ) (r : TaskRec) (gen pos : ℕ) (acc : List ℕ)
    (hget : s.tasks[tid]? = some r) (hphase : r.phase = .running gen pos acc)
    (hcom : r.committed = false) (hw : 0 < r.texRect.size.x) (hh : 0 < r.texRect.size.y)
    (hpos : pos ≤ lastPoll r.texRect) (hstale : gen < tokenAt s r.tileIdx) :
    ∀ r', s'.tasks[tid]? = some r' → r'.committed = false := by
  have hind : ∃ r'', s'.tasks[tid]? = some r'' ∧ r''.committed = false ∧
      r''.texRect = r.texRect ∧ r''.tileIdx = r.tileIdx ∧
      (r''.phase = .done ∨
        ∃ pos' acc', r''.phase = .running gen pos' acc' ∧ pos' ≤ lastPoll r.texRect) ∧
      gen < tokenAt s' r.tileIdx := by
    induction hsteps with
    | refl => exact ⟨r, hget, hcom, rfl, rfl, Or.inr ⟨pos, acc, hphase, hpos⟩, hstale⟩
    | tail hab hbc ih =>
      exact c1_inv_step tid r.texRect r.tileIdx gen hw hh _ _ hbc ih
  obtain ⟨r'', hget'', hcom'', -⟩ := hind
  intro r' hr'
  rw [hget''] at hr'
  cases hr'
  exact hcom''

set_option maxRecDepth 400000 in
/-- Closed witness for `c1_amended_no_commit_before_last_poll`: a concrete
started task (generation 1, before its only poll) whose tile token is
already 2; after its cancellation step the task has not committed. -/
theorem c1_amended_witness :
    ((cancelFn (updateFn frameC (startFn (updateFn frameA cfgA) 0)) 0).tasks[0]?).map
      TaskRec.committed = some false := by
  have h := c1_amended_no_commit_before_last_poll
    (updateFn frameC (startFn (updateFn frameA cfgA) 0))
    (cancelFn (updateFn frameC (startFn (updateFn frameA cfgA) 0)) 0)
    (Relation.ReflTransGen.single
      (Step.cancelSelf _ 0 1 0 [] (by decide) (by decide) (by decide) (by decide)))
    0 ⟨5, ⟨4, 4⟩, ⟨⟨1, 1⟩, ⟨1, 1⟩⟩, ⟨0, 0⟩, 1 / 64, .running 1 0 [], true, false⟩
    1 0 [] (by decide) rfl rfl (by decide) (by decide) (by decide) (by decide)
  cases hb : (cancelFn (updateFn frameC (startFn (updateFn frameA cfgA) 0)) 0).tasks[0]? with
  | none => exact absurd hb (by decide)
  | some r' =>
    have hc := h r' hb
    simp [hc]

end MandelTexture
